import Mathlib

/-!
Verification of the TradeGravity provider ingestion layer.

The Go source (packages `comtrade` and `wits`) is shallowly embedded here.
Go strings are modelled as `List Char` (`Str`); Go `int` as `Int` with the
64-bit range check applied where `strconv.Atoi` performs it; `float64`
trade values are modelled as `ℚ` (no claim in scope depends on binary
floating-point rounding).  Pure functions are translated definition by
definition, keeping the source's names and control flow.
-/

namespace TradeGravity

/-- Go strings, modelled as character lists. -/
abbrev Str := List Char

/-! ### Character classes (ASCII model of the Go `strings`/`unicode` helpers) -/

/-- `r >= '0' && r <= '9'`, the per-character test of the source's `isDigits`. -/
def isDigitC (c : Char) : Bool := 48 ≤ c.toNat && c.toNat ≤ 57

/-- Source `isDigits`: every rune of the string is a decimal digit. -/
def isDigitsL (l : Str) : Bool := l.all isDigitC

/-- `unicode.IsSpace`, as used by `strings.TrimSpace`: ASCII whitespace plus the
Unicode space code points Go recognises. -/
def goIsSpace (c : Char) : Bool :=
  let n := c.toNat
  n == 32 || (9 ≤ n && n ≤ 13) || n == 0x85 || n == 0xA0 || n == 0x1680 ||
    (0x2000 ≤ n && n ≤ 0x200A) || n == 0x2028 || n == 0x2029 || n == 0x202F ||
    n == 0x205F || n == 0x3000

/-- `strings.TrimSpace`: drop whitespace from both ends. -/
def goTrim (l : Str) : Str :=
  ((l.dropWhile goIsSpace).reverse.dropWhile goIsSpace).reverse

/-- Per-character `strings.ToUpper` (ASCII; ISO3 codes and period tokens are ASCII,
so non-ASCII simple case folding is modelled as the identity). -/
def upC (c : Char) : Char :=
  if 97 ≤ c.toNat && c.toNat ≤ 122 then Char.ofNat (c.toNat - 32) else c

/-- Per-character `strings.ToLower` (ASCII model). -/
def loC (c : Char) : Char :=
  if 65 ≤ c.toNat && c.toNat ≤ 90 then Char.ofNat (c.toNat + 32) else c

/-- `strings.ToUpper` (ASCII model). -/
def goUpper (l : Str) : Str := l.map upC

/-- `strings.ToLower` (ASCII model). -/
def goLower (l : Str) : Str := l.map loC

/-- Does `l` begin with `pat`?  (`strings.HasPrefix`.) -/
def strStarts : Str → Str → Bool
  | _, [] => true
  | [], _ :: _ => false
  | c :: cs, p :: ps => c == p && strStarts cs ps

/-- `strings.Contains l pat`: some suffix of `l` begins with `pat`. -/
def containsL (pat : Str) : Str → Bool
  | [] => pat.isEmpty
  | c :: cs => strStarts (c :: cs) pat || containsL pat cs

/-- `strings.Split` on a single-character separator. -/
def splitC (sep : Char) : Str → List Str
  | [] => [[]]
  | c :: rest =>
    match splitC sep rest with
    | [] => [[c]]
    | h :: t => if c = sep then [] :: h :: t else (c :: h) :: t

/-- Worker for `strings.Split` with a multi-character separator: scan left to
right, cutting at each non-overlapping occurrence of `pat`.  `fuel` bounds the
recursion; `splitPat` supplies enough fuel for the scan to finish. -/
def splitPatAux (pat : Str) : Nat → Str → Str → List Str
  | 0, s, acc => [acc.reverse ++ s]
  | fuel + 1, s, acc =>
    match s with
    | [] => [acc.reverse]
    | c :: cs =>
      if strStarts (c :: cs) pat ∧ pat ≠ [] then
        acc.reverse :: splitPatAux pat fuel (List.drop pat.length (c :: cs)) []
      else
        splitPatAux pat fuel cs (c :: acc)

/-- `strings.Split` with a (non-empty, in all source uses) separator string. -/
def splitPat (s pat : Str) : List Str := splitPatAux pat (s.length + 1) s []

/-! ### `strconv.Atoi` and `fmt.Sprintf` integer formatting -/

def digitVal (c : Char) : Nat := c.toNat - 48

/-- Decimal value of a digit string (most significant first). -/
def digitsVal (l : Str) : Nat := l.foldl (fun a c => a * 10 + digitVal c) 0

def maxInt64 : Nat := 2 ^ 63 - 1

/-- Digits-only part of `strconv.Atoi`: non-empty all-digit input. -/
def atoiNat (l : Str) : Option Nat :=
  if l ≠ [] ∧ isDigitsL l = true then some (digitsVal l) else none

/-- `strconv.Atoi`: optional sign, decimal digits, 64-bit range check. -/
def goAtoi (l : Str) : Option Int :=
  match l with
  | [] => none
  | c :: rest =>
    if c = '+' then
      (atoiNat rest).bind fun n => if n ≤ maxInt64 then some (n : Int) else none
    else if c = '-' then
      (atoiNat rest).bind fun n => if n ≤ 2 ^ 63 then some (-(n : Int)) else none
    else
      (atoiNat (c :: rest)).bind fun n =>
        if n ≤ maxInt64 then some (n : Int) else none

/-- The decimal digit character for `d ≤ 9`. -/
def decChar (d : Nat) : Char :=
  match d with
  | 0 => '0' | 1 => '1' | 2 => '2' | 3 => '3' | 4 => '4'
  | 5 => '5' | 6 => '6' | 7 => '7' | 8 => '8' | _ => '9'

/-- Decimal digits of `n`, most significant first (`fuel ≥ n` suffices). -/
def toDecAux : Nat → Nat → Str
  | 0, _ => []
  | fuel + 1, n =>
    if n = 0 then [] else toDecAux fuel (n / 10) ++ [decChar (n % 10)]

/-- Decimal representation of a natural number (`strconv.Itoa` on naturals). -/
def toDec (n : Nat) : Str := if n = 0 then ['0'] else toDecAux n n

/-- `fmt.Sprintf("%d", i)` for a Go int. -/
def intRepr (i : Int) : Str :=
  if i < 0 then '-' :: toDec (-i).toNat else toDec i.toNat

/-- Left-pad with zeros to width `w`. -/
def padZ (w : Nat) (l : Str) : Str := List.replicate (w - l.length) '0' ++ l

/-- `fmt.Sprintf("%0wd", i)`: zero padding goes between the sign and digits. -/
def fmtPad (w : Nat) (i : Int) : Str :=
  if i < 0 then '-' :: padZ (w - 1) (toDec (-i).toNat) else padZ w (toDec i.toNat)

/-! ### Period model

`model.PeriodType` is a Go string type; its constants are `"M"`, `"Q"`, `"Y"`. -/

def ptM : Str := ['M']
def ptQ : Str := ['Q']
def ptY : Str := ['Y']

/-- Source `parseYearMonth`, six-contiguous-digit branch (`YYYYMM`). -/
def pymSix (v : Str) : Option (Int × Int) :=
  if v.length = 6 ∧ isDigitsL v = true then
    if 1 ≤ (goAtoi (v.drop 4)).getD 0 ∧ (goAtoi (v.drop 4)).getD 0 ≤ 12 then
      some ((goAtoi (v.take 4)).getD 0, (goAtoi (v.drop 4)).getD 0)
    else none
  else none

/-- Source `parseYearMonth`, hyphen branch (`YYYY-M` / `YYYY-MM`). -/
def pymHyphen (v : Str) : Option (Int × Int) :=
  match splitC '-' v with
  | [p0, p1] =>
    if p0.length = 4 then
      match goAtoi p0, goAtoi p1 with
      | some y, some m => if 1 ≤ m ∧ m ≤ 12 then some (y, m) else none
      | _, _ => none
    else none
  | _ => none

/-- Source `parseYearMonth` (identical in both provider packages): try the
six-digit form, then fall through to the hyphenated form. -/
def parseYearMonth (value : Str) : Option (Int × Int) :=
  match pymSix (goTrim value) with
  | some r => some r
  | none => pymHyphen (goTrim value)

/-- One split attempt of `parseYearQuarter`: exactly two parts, both integers,
quarter in 1..4. -/
def pyqSplit (v pat : Str) : Option (Int × Int) :=
  match splitPat v pat with
  | [p0, p1] =>
    match goAtoi p0, goAtoi p1 with
    | some y, some q => if 1 ≤ q ∧ q ≤ 4 then some (y, q) else none
    | _, _ => none
  | _ => none

/-- Source `parseYearQuarter`: uppercase, try the `-Q` separator, then fall
through to the bare `Q` separator. -/
def parseYearQuarter (value : Str) : Option (Int × Int) :=
  match
    (if containsL ['-', 'Q'] (goUpper (goTrim value)) then
      pyqSplit (goUpper (goTrim value)) ['-', 'Q']
    else none) with
  | some r => some r
  | none =>
    if containsL ['Q'] (goUpper (goTrim value)) then
      pyqSplit (goUpper (goTrim value)) ['Q']
    else none

/-- Source `parseYear`: exactly four digits. -/
def parseYear (value : Str) : Option Int :=
  if (goTrim value).length = 4 ∧ isDigitsL (goTrim value) = true then
    goAtoi (goTrim value)
  else none

/-- Source `normalizePeriod` (identical in both provider packages): first match
wins among year+month, year+quarter, bare year. -/
def normalizePeriod (raw : Str) : Option (Str × Str) :=
  if goTrim raw = [] then none
  else
    match parseYearMonth (goTrim raw) with
    | some (y, m) => some (ptM, fmtPad 4 y ++ '-' :: fmtPad 2 m)
    | none =>
      match parseYearQuarter (goTrim raw) with
      | some (y, q) => some (ptQ, fmtPad 4 y ++ '-' :: 'Q' :: intRepr q)
      | none =>
        match parseYear (goTrim raw) with
        | some y => some (ptY, fmtPad 4 y)
        | none => none

/-! ### Canonical period form (spec §3): Month `YYYY-MM`, Quarter `YYYY-Qn`,
Year `YYYY`. -/

def isCanonMonth : Str → Bool
  | [a, b, c, d, h, e, f] =>
    isDigitC a && isDigitC b && isDigitC c && isDigitC d && h == '-' &&
      isDigitC e && isDigitC f &&
      (1 ≤ digitVal e * 10 + digitVal f && digitVal e * 10 + digitVal f ≤ 12)
  | _ => false

def isCanonQuarter : Str → Bool
  | [a, b, c, d, h, q, n] =>
    isDigitC a && isDigitC b && isDigitC c && isDigitC d && h == '-' &&
      q == 'Q' && isDigitC n && (1 ≤ digitVal n && digitVal n ≤ 4)
  | _ => false

def isCanonYear : Str → Bool
  | [a, b, c, d] => isDigitC a && isDigitC b && isDigitC c && isDigitC d
  | _ => false

/-! ### Supporting lemmas: characters, trimming, splitting -/

lemma isDigitC_toNat {c : Char} (h : isDigitC c = true) :
    48 ≤ c.toNat ∧ c.toNat ≤ 57 := by
  simpa [isDigitC] using h

lemma isDigitC_ne {c x : Char} (h : isDigitC c = true) (hx : isDigitC x = false) :
    c ≠ x := by
  intro he
  subst he
  rw [h] at hx
  cases hx

lemma goIsSpace_digit {c : Char} (h : isDigitC c = true) : goIsSpace c = false := by
  obtain ⟨h1, h2⟩ := isDigitC_toNat h
  simp only [goIsSpace]
  simp only [Bool.or_eq_false_iff, beq_eq_false_iff_ne, ne_eq, Bool.and_eq_false_iff,
    decide_eq_false_iff_not, not_le]
  omega

lemma upC_digit {c : Char} (h : isDigitC c = true) : upC c = c := by
  obtain ⟨h1, h2⟩ := isDigitC_toNat h
  have hn : ¬(97 ≤ c.toNat && c.toNat ≤ 122) = true := by
    simp only [Bool.and_eq_true, decide_eq_true_eq, not_and, not_le]
    omega
  simp [upC, hn]

lemma dropWhile_id_of {p : Char → Bool} {l : Str} (h : ∀ c ∈ l, p c = false) :
    l.dropWhile p = l := by
  cases l with
  | nil => rfl
  | cons c cs => simp [List.dropWhile_cons, h c (by simp)]

lemma goTrim_eq_self {l : Str} (h : ∀ c ∈ l, goIsSpace c = false) : goTrim l = l := by
  unfold goTrim
  rw [dropWhile_id_of h, dropWhile_id_of, List.reverse_reverse]
  intro c hc
  exact h c (by simpa using hc)

lemma splitC_ne_nil (sep : Char) (l : Str) : splitC sep l ≠ [] := by
  induction l with
  | nil => simp [splitC]
  | cons c cs ih =>
    cases h : splitC sep cs with
    | nil => exact absurd h ih
    | cons a t =>
      simp only [splitC, h]
      split <;> simp

lemma splitC_no_sep (sep : Char) (l : Str) : ∀ ch ∈ splitC sep l, sep ∉ ch := by
  induction l with
  | nil =>
    intro ch hch
    simp [splitC] at hch
    simp [hch]
  | cons c cs ih =>
    intro ch hch
    cases h : splitC sep cs with
    | nil => exact absurd h (splitC_ne_nil sep cs)
    | cons a t =>
      simp only [splitC, h] at hch
      by_cases hc : c = sep
      · rw [if_pos hc] at hch
        rcases List.mem_cons.mp hch with rfl | hch
        · simp
        · exact ih ch (h ▸ hch)
      · rw [if_neg hc] at hch
        rcases List.mem_cons.mp hch with rfl | hch
        · have ha : sep ∉ a := ih a (h ▸ List.mem_cons_self a t)
          intro hmem
          rcases List.mem_cons.mp hmem with rfl | hmem
          · exact hc rfl
          · exact ha hmem
        · exact ih ch (h ▸ List.mem_cons_of_mem a hch)

lemma splitC_sepFree {sep : Char} {l : Str} (h : sep ∉ l) : splitC sep l = [l] := by
  induction l with
  | nil => rfl
  | cons c cs ih =>
    have hc : c ≠ sep := fun hc => h (hc ▸ List.mem_cons_self c cs)
    have hcs : sep ∉ cs := fun hm => h (List.mem_cons_of_mem c hm)
    simp only [splitC, ih hcs]
    rw [if_neg hc]

lemma splitC_append {sep : Char} {x : Str} (hx : sep ∉ x) (y : Str) :
    splitC sep (x ++ sep :: y) = x :: splitC sep y := by
  induction x with
  | nil =>
    cases h : splitC sep y with
    | nil => exact absurd h (splitC_ne_nil sep y)
    | cons a t => simp [splitC, h]
  | cons c cs ih =>
    have hc : c ≠ sep := fun hc => hx (hc ▸ List.mem_cons_self c cs)
    have hcs : sep ∉ cs := fun hm => hx (List.mem_cons_of_mem c hm)
    have hrec := ih hcs
    cases h : splitC sep y with
    | nil => exact absurd h (splitC_ne_nil sep y)
    | cons a t =>
      rw [h] at hrec
      simp [List.cons_append, splitC, hrec, hc, h]

/-! ### Supporting lemmas: decimal values and formatting -/

lemma digitsVal_foldl_lt {l : Str} (hd : isDigitsL l = true) :
    ∀ a : Nat, List.foldl (fun a c => a * 10 + digitVal c) a l < (a + 1) * 10 ^ l.length := by
  induction l with
  | nil => intro a; simp
  | cons c cs ih =>
    intro a
    simp only [isDigitsL, List.all_cons, Bool.and_eq_true] at hd
    have h9 : digitVal c ≤ 9 := by
      obtain ⟨h1, h2⟩ := isDigitC_toNat hd.1
      unfold digitVal
      omega
    simp only [List.foldl_cons, List.length_cons]
    calc List.foldl (fun a c => a * 10 + digitVal c) (a * 10 + digitVal c) cs
        < (a * 10 + digitVal c + 1) * 10 ^ cs.length := ih hd.2 _
      _ ≤ ((a + 1) * 10) * 10 ^ cs.length := Nat.mul_le_mul_right _ (by omega)
      _ = (a + 1) * 10 ^ (cs.length + 1) := by ring

lemma digitsVal_lt {l : Str} (hd : isDigitsL l = true) : digitsVal l < 10 ^ l.length := by
  simpa [digitsVal] using digitsVal_foldl_lt hd 0

lemma atoiNat_some {l : Str} {n : Nat} (h : atoiNat l = some n) :
    n = digitsVal l ∧ l ≠ [] ∧ isDigitsL l = true := by
  unfold atoiNat at h
  split at h
  · exact ⟨(Option.some_inj.mp h).symm, by tauto, by tauto⟩
  · cases h

lemma atoiNat_of_digits {l : Str} (hne : l ≠ []) (hd : isDigitsL l = true) :
    atoiNat l = some (digitsVal l) := by
  unfold atoiNat
  rw [if_pos ⟨hne, hd⟩]

lemma bindRange_some {x : Option Nat} {B : Nat} {y : Int}
    (h : (x.bind fun n => if n ≤ B then some (n : Int) else none) = some y) :
    ∃ n, x = some n ∧ n ≤ B ∧ y = (n : Int) := by
  rcases Option.bind_eq_some.mp h with ⟨n, h1, h2⟩
  split at h2
  · rw [Option.some_inj] at h2
    exact ⟨n, h1, by assumption, h2.symm⟩
  · cases h2

lemma goAtoi_no_minus {l : Str} {y : Int} (h : goAtoi l = some y)
    (hm : '-' ∉ l) : ∃ n : Nat, y = (n : Int) ∧
      ((l.length = 4 ∧ isDigitsL l = true → n = digitsVal l) ∧
        (l.length = 4 → n ≤ 9999)) := by
  cases l with
  | nil => simp [goAtoi] at h
  | cons c rest =>
    simp only [goAtoi] at h
    by_cases hp : c = '+'
    · rw [if_pos hp] at h
      obtain ⟨n, h1, _, rfl⟩ := bindRange_some h
      obtain ⟨rfl, _, hdig⟩ := atoiNat_some h1
      refine ⟨digitsVal rest, rfl, ?_, ?_⟩
      · rintro ⟨_, hall⟩
        subst hp
        simp [isDigitsL] at hall
        exact absurd hall.1 (by decide)
      · intro hlen
        have h3 : rest.length = 3 := by simpa using hlen
        have hb := digitsVal_lt hdig
        rw [h3] at hb
        norm_num at hb
        omega
    · rw [if_neg hp] at h
      have hmn : c ≠ '-' := fun hc => hm (hc ▸ List.mem_cons_self c rest)
      rw [if_neg hmn] at h
      obtain ⟨n, h1, _, rfl⟩ := bindRange_some h
      obtain ⟨rfl, _, hdig⟩ := atoiNat_some h1
      refine ⟨digitsVal (c :: rest), rfl, fun _ => rfl, ?_⟩
      intro hlen
      have := digitsVal_lt hdig
      rw [hlen] at this
      omega

lemma goAtoi_len4_bounds {l : Str} {y : Int} (h : goAtoi l = some y)
    (hm : '-' ∉ l) (hlen : l.length = 4) : 0 ≤ y ∧ y ≤ 9999 := by
  obtain ⟨n, rfl, _, hb⟩ := goAtoi_no_minus h hm
  exact ⟨Int.natCast_nonneg n, by exact_mod_cast hb hlen⟩

lemma goAtoi_of_digits {l : Str} (hne : l ≠ []) (hd : isDigitsL l = true)
    (hle : digitsVal l ≤ maxInt64) : goAtoi l = some (digitsVal l) := by
  cases l with
  | nil => exact absurd rfl hne
  | cons c rest =>
    have hc : isDigitC c = true := by
      have := List.all_eq_true.mp hd c (List.mem_cons_self c rest)
      simpa using this
    have hp : c ≠ '+' := isDigitC_ne hc (by decide)
    have hmn : c ≠ '-' := isDigitC_ne hc (by decide)
    simp only [goAtoi]
    rw [if_neg hp, if_neg hmn, atoiNat_of_digits (by simp) hd]
    simp [hle]

lemma decChar_digit (d : Nat) : isDigitC (decChar d) = true := by
  match d with
  | 0 | 1 | 2 | 3 | 4 | 5 | 6 | 7 | 8 => rfl
  | _ + 9 => rfl

lemma toDecAux_digits : ∀ fuel n, isDigitsL (toDecAux fuel n) = true := by
  intro fuel
  induction fuel with
  | zero => intro n; rfl
  | succ f ih =>
    intro n
    simp only [toDecAux]
    split
    · rfl
    · rw [isDigitsL, List.all_append, Bool.and_eq_true]
      exact ⟨ih (n / 10), by simp [decChar_digit]⟩

lemma toDecAux_len : ∀ fuel n k, n < 10 ^ k → (toDecAux fuel n).length ≤ k := by
  intro fuel
  induction fuel with
  | zero => intro n k _; simp [toDecAux]
  | succ f ih =>
    intro n k hk
    simp only [toDecAux]
    split
    · simp
    · rename_i hn
      match k with
      | 0 => omega
      | k' + 1 =>
        have hdiv : n / 10 < 10 ^ k' := by
          rw [Nat.div_lt_iff_lt_mul (by norm_num)]
          calc n < 10 ^ (k' + 1) := hk
            _ = 10 ^ k' * 10 := by ring
        have := ih (n / 10) k' hdiv
        simp only [List.length_append, List.length_cons, List.length_nil]
        omega

lemma toDec_digits (n : Nat) : isDigitsL (toDec n) = true := by
  unfold toDec
  split
  · decide
  · exact toDecAux_digits n n

lemma toDec_len {n : Nat} (h : n ≤ 9999) : (toDec n).length ≤ 4 := by
  unfold toDec
  split
  · decide
  · exact toDecAux_len n n 4 (by omega)

lemma padZ_len {l : Str} (h : l.length ≤ 4) : (padZ 4 l).length = 4 := by
  simp [padZ]
  omega

lemma padZ_digits {w : Nat} {l : Str} (h : isDigitsL l = true) :
    isDigitsL (padZ w l) = true := by
  rw [padZ, isDigitsL, List.all_append, Bool.and_eq_true]
  refine ⟨?_, h⟩
  simp only [List.all_eq_true]
  intro c hc
  rw [List.eq_of_mem_replicate hc]
  decide

lemma len4_shape {l : Str} (h : l.length = 4) : ∃ a b c d, l = [a, b, c, d] := by
  match l, h with
  | [a, b, c, d], _ => exact ⟨a, b, c, d, rfl⟩

lemma fmtPad4_shape {y : Int} (h0 : 0 ≤ y) (h1 : y ≤ 9999) :
    ∃ a b c d, fmtPad 4 y = [a, b, c, d] ∧ isDigitC a = true ∧ isDigitC b = true ∧
      isDigitC c = true ∧ isDigitC d = true := by
  have hy : ¬ y < 0 := by omega
  have hle : y.toNat ≤ 9999 := by omega
  have hlen : (padZ 4 (toDec y.toNat)).length = 4 := padZ_len (toDec_len hle)
  have hdig : isDigitsL (padZ 4 (toDec y.toNat)) = true := padZ_digits (toDec_digits _)
  obtain ⟨a, b, c, d, habcd⟩ := len4_shape hlen
  rw [habcd] at hdig
  simp only [isDigitsL, List.all_cons, List.all_nil, Bool.and_true, Bool.and_eq_true] at hdig
  exact ⟨a, b, c, d, by rw [fmtPad, if_neg hy, habcd], hdig.1, hdig.2.1, hdig.2.2.1, hdig.2.2.2⟩

/-- Shape check for a `%02d`-formatted month: two digit characters and, read as
a number, in 1..12. -/
def month2ok (l : Str) : Bool :=
  match l with
  | [e, f] =>
    isDigitC e && isDigitC f &&
      (1 ≤ digitVal e * 10 + digitVal f && digitVal e * 10 + digitVal f ≤ 12)
  | _ => false

lemma month2ok_fmt {m : Int} (h1 : 1 ≤ m) (h2 : m ≤ 12) :
    month2ok (fmtPad 2 m) = true := by
  interval_cases m <;> decide

lemma month2ok_shape {l : Str} (h : month2ok l = true) :
    ∃ e f, l = [e, f] ∧ isDigitC e = true ∧ isDigitC f = true ∧
      1 ≤ digitVal e * 10 + digitVal f ∧ digitVal e * 10 + digitVal f ≤ 12 := by
  match l, h with
  | [e, f], h =>
    simp only [month2ok, Bool.and_eq_true, decide_eq_true_eq] at h
    exact ⟨e, f, rfl, h.1.1, h.1.2, h.2.1, h.2.2⟩

/-- Shape check for a `%d`-formatted quarter: one digit character in 1..4. -/
def quarter1ok (l : Str) : Bool :=
  match l with
  | [n] => isDigitC n && (1 ≤ digitVal n && digitVal n ≤ 4)
  | _ => false

lemma quarter1ok_fmt {q : Int} (h1 : 1 ≤ q) (h2 : q ≤ 4) :
    quarter1ok (intRepr q) = true := by
  interval_cases q <;> decide

lemma quarter1ok_shape {l : Str} (h : quarter1ok l = true) :
    ∃ n, l = [n] ∧ isDigitC n = true ∧ 1 ≤ digitVal n ∧ digitVal n ≤ 4 := by
  match l, h with
  | [n], h =>
    simp only [quarter1ok, Bool.and_eq_true, decide_eq_true_eq] at h
    exact ⟨n, rfl, h.1, h.2.1, h.2.2⟩

lemma canonMonth_fmt {y m : Int} (hy0 : 0 ≤ y) (hy1 : y ≤ 9999)
    (hm1 : 1 ≤ m) (hm2 : m ≤ 12) :
    isCanonMonth (fmtPad 4 y ++ '-' :: fmtPad 2 m) = true := by
  obtain ⟨a, b, c, d, habcd, ha, hb, hc, hd⟩ := fmtPad4_shape hy0 hy1
  obtain ⟨e, f, hef, he, hf, hm1', hm2'⟩ := month2ok_shape (month2ok_fmt hm1 hm2)
  rw [habcd, hef]
  simp [isCanonMonth, ha, hb, hc, hd, he, hf, hm1', hm2']

lemma canonQuarter_fmt {y q : Int} (hy0 : 0 ≤ y) (hy1 : y ≤ 9999)
    (hq1 : 1 ≤ q) (hq2 : q ≤ 4) :
    isCanonQuarter (fmtPad 4 y ++ '-' :: 'Q' :: intRepr q) = true := by
  obtain ⟨a, b, c, d, habcd, ha, hb, hc, hd⟩ := fmtPad4_shape hy0 hy1
  obtain ⟨n, hn, hdn, hq1', hq2'⟩ := quarter1ok_shape (quarter1ok_fmt hq1 hq2)
  rw [habcd, hn]
  simp [isCanonQuarter, ha, hb, hc, hd, hdn, hq1', hq2']

lemma canonYear_fmt {y : Int} (hy0 : 0 ≤ y) (hy1 : y ≤ 9999) :
    isCanonYear (fmtPad 4 y) = true := by
  obtain ⟨a, b, c, d, habcd, ha, hb, hc, hd⟩ := fmtPad4_shape hy0 hy1
  rw [habcd]
  simp [isCanonYear, ha, hb, hc, hd]

/-! ### Bounds carried by successful period parses -/

lemma isDigitsL_mem {l : Str} (hd : isDigitsL l = true) {c : Char} (hc : c ∈ l) :
    isDigitC c = true := by
  have := List.all_eq_true.mp hd c hc
  simpa using this

lemma hyphen_not_mem_digits {l : Str} (hd : isDigitsL l = true) : '-' ∉ l := by
  intro hm
  have := isDigitsL_mem hd hm
  exact absurd this (by decide)

lemma pymSix_some {v : Str} {y m : Int} (h : pymSix v = some (y, m)) :
    0 ≤ y ∧ y ≤ 9999 ∧ 1 ≤ m ∧ m ≤ 12 := by
  unfold pymSix at h
  split at h
  · rename_i hcond
    obtain ⟨hlen, hdig⟩ := hcond
    split at h
    · rename_i hm
      rw [Option.some_inj] at h
      injection h with h1 h2
      subst h1; subst h2
      have hdig4 : isDigitsL (v.take 4) = true := by
        simp only [isDigitsL, List.all_eq_true]
        intro c hc
        exact isDigitsL_mem hdig (List.mem_of_mem_take hc)
      have hlen4 : (v.take 4).length = 4 := by
        simp [List.length_take, hlen]
      have hne : v.take 4 ≠ [] := by
        intro he
        rw [he] at hlen4
        cases hlen4
      have hval : digitsVal (v.take 4) < 10 ^ 4 := by
        have := digitsVal_lt hdig4
        rwa [hlen4] at this
      rw [goAtoi_of_digits hne hdig4 (by unfold maxInt64; omega)]
      norm_num at hval ⊢
      refine ⟨?_, hm.1, hm.2⟩
      exact_mod_cast Nat.le_of_lt_succ (by omega)
    · cases h
  · cases h

lemma pymHyphen_some {v : Str} {y m : Int} (h : pymHyphen v = some (y, m)) :
    0 ≤ y ∧ y ≤ 9999 ∧ 1 ≤ m ∧ m ≤ 12 := by
  unfold pymHyphen at h
  cases hsp : splitC '-' v with
  | nil => simp [hsp] at h
  | cons p0 rest =>
    cases rest with
    | nil => simp [hsp] at h
    | cons p1 rest2 =>
      cases rest2 with
      | cons r rs => simp [hsp] at h
      | nil =>
        simp only [hsp] at h
        by_cases hl : p0.length = 4
        · rw [if_pos hl] at h
          have hp0 : '-' ∉ p0 := splitC_no_sep '-' v p0 (hsp ▸ by simp)
          cases ha : goAtoi p0 with
          | none => cases hb : goAtoi p1 <;> simp [ha, hb] at h
          | some y' =>
            cases hb : goAtoi p1 with
            | none => simp [ha, hb] at h
            | some m' =>
              simp only [ha, hb] at h
              split at h
              · rename_i hm
                rw [Option.some_inj] at h
                injection h with h1 h2
                subst h1; subst h2
                have := goAtoi_len4_bounds ha hp0 hl
                exact ⟨this.1, this.2, hm.1, hm.2⟩
              · cases h
        · rw [if_neg hl] at h
          cases h

lemma parseYearMonth_bounds {s : Str} {y m : Int}
    (h : parseYearMonth s = some (y, m)) :
    0 ≤ y ∧ y ≤ 9999 ∧ 1 ≤ m ∧ m ≤ 12 := by
  unfold parseYearMonth at h
  cases hs : pymSix (goTrim s) with
  | some r =>
    rw [hs] at h
    simp only [Option.some_inj] at h
    exact pymSix_some (h ▸ hs)
  | none =>
    rw [hs] at h
    exact pymHyphen_some h

lemma parseYear_bounds {s : Str} {y : Int} (h : parseYear s = some y) :
    0 ≤ y ∧ y ≤ 9999 := by
  unfold parseYear at h
  split at h
  · rename_i hcond
    exact goAtoi_len4_bounds h (hyphen_not_mem_digits hcond.2) hcond.1
  · cases h

lemma pyqSplit_some {v pat : Str} {y q : Int} (h : pyqSplit v pat = some (y, q)) :
    1 ≤ q ∧ q ≤ 4 := by
  unfold pyqSplit at h
  cases hsp : splitPat v pat with
  | nil => simp [hsp] at h
  | cons p0 rest =>
    cases rest with
    | nil => simp [hsp] at h
    | cons p1 rest2 =>
      cases rest2 with
      | cons r rs => simp [hsp] at h
      | nil =>
        simp only [hsp] at h
        cases ha : goAtoi p0 with
        | none => cases hb : goAtoi p1 <;> simp [ha, hb] at h
        | some y' =>
          cases hb : goAtoi p1 with
          | none => simp [ha, hb] at h
          | some q' =>
            simp only [ha, hb] at h
            split at h
            · rename_i hq
              rw [Option.some_inj] at h
              injection h with h1 h2
              subst h2
              exact hq
            · cases h

lemma parseYearQuarter_some {s : Str} {y q : Int}
    (h : parseYearQuarter s = some (y, q)) : 1 ≤ q ∧ q ≤ 4 := by
  unfold parseYearQuarter at h
  by_cases hc1 : containsL ['-', 'Q'] (goUpper (goTrim s)) = true
  · rw [if_pos hc1] at h
    cases ha : pyqSplit (goUpper (goTrim s)) ['-', 'Q'] with
    | some r =>
      simp only [ha, Option.some_inj] at h
      exact pyqSplit_some (h ▸ ha)
    | none =>
      simp only [ha] at h
      split at h
      · exact pyqSplit_some h
      · cases h
  · rw [if_neg hc1] at h
    change (if containsL ['Q'] (goUpper (goTrim s)) = true then
      pyqSplit (goUpper (goTrim s)) ['Q'] else none) = some (y, q) at h
    split at h
    · exact pyqSplit_some h
    · cases h

/-! ### Canonicality of `normalizePeriod` output -/

lemma normalizePeriod_month_canon {s p : Str}
    (h : normalizePeriod s = some (ptM, p)) : isCanonMonth p = true := by
  unfold normalizePeriod at h
  split at h
  · cases h
  · cases hm : parseYearMonth (goTrim s) with
    | some r =>
      obtain ⟨y, m⟩ := r
      rw [hm] at h
      rw [Option.some_inj] at h
      injection h with h1 h2
      obtain ⟨hy0, hy1, hm1, hm2⟩ := parseYearMonth_bounds hm
      rw [← h2]
      exact canonMonth_fmt hy0 hy1 hm1 hm2
    | none =>
      rw [hm] at h
      cases hq : parseYearQuarter (goTrim s) with
      | some r =>
        obtain ⟨y, q⟩ := r
        rw [hq] at h
        rw [Option.some_inj] at h
        injection h with h1 h2
        exact absurd h1 (by decide)
      | none =>
        rw [hq] at h
        cases hy : parseYear (goTrim s) with
        | some y =>
          rw [hy] at h
          rw [Option.some_inj] at h
          injection h with h1 h2
          exact absurd h1 (by decide)
        | none => rw [hy] at h; cases h

lemma normalizePeriod_year_canon {s p : Str}
    (h : normalizePeriod s = some (ptY, p)) : isCanonYear p = true := by
  unfold normalizePeriod at h
  split at h
  · cases h
  · cases hm : parseYearMonth (goTrim s) with
    | some r =>
      obtain ⟨y, m⟩ := r
      rw [hm] at h
      rw [Option.some_inj] at h
      injection h with h1 h2
      exact absurd h1 (by decide)
    | none =>
      rw [hm] at h
      cases hq : parseYearQuarter (goTrim s) with
      | some r =>
        obtain ⟨y, q⟩ := r
        rw [hq] at h
        rw [Option.some_inj] at h
        injection h with h1 h2
        exact absurd h1 (by decide)
      | none =>
        rw [hq] at h
        cases hy : parseYear (goTrim s) with
        | some y =>
          rw [hy] at h
          rw [Option.some_inj] at h
          injection h with h1 h2
          obtain ⟨hy0, hy1⟩ := parseYear_bounds hy
          rw [← h2]
          exact canonYear_fmt hy0 hy1
        | none => rw [hy] at h; cases h

lemma normalizePeriod_quarter_canon {s p : Str} {y q : Int}
    (h : normalizePeriod s = some (ptQ, p))
    (hq : parseYearQuarter (goTrim s) = some (y, q))
    (hy0 : 0 ≤ y) (hy1 : y ≤ 9999) : isCanonQuarter p = true := by
  unfold normalizePeriod at h
  split at h
  · cases h
  · cases hm : parseYearMonth (goTrim s) with
    | some r =>
      obtain ⟨y', m'⟩ := r
      rw [hm] at h
      rw [Option.some_inj] at h
      injection h with h1 h2
      exact absurd h1 (by decide)
    | none =>
      rw [hm, hq] at h
      rw [Option.some_inj] at h
      injection h with h1 h2
      obtain ⟨hq1, hq2⟩ := parseYearQuarter_some hq
      rw [← h2]
      exact canonQuarter_fmt hy0 hy1 hq1 hq2

/-! ### Quarter detection needs a `Q`; all-digit (and hyphen) input has none -/

lemma strStarts_q_false {l : Str} (h : 'Q' ∉ l) : strStarts l ['Q'] = false := by
  cases l with
  | nil => rfl
  | cons c cs =>
    have hc : c ≠ 'Q' := fun hc => h (hc ▸ List.mem_cons_self c cs)
    simp [strStarts, hc]

lemma contains_q_false {l : Str} (h : 'Q' ∉ l) : containsL ['Q'] l = false := by
  induction l with
  | nil => rfl
  | cons c cs ih =>
    have hcs : 'Q' ∉ cs := fun hm => h (List.mem_cons_of_mem c hm)
    simp [containsL, strStarts_q_false h, ih hcs]

lemma contains_hq_false {l : Str} (h : 'Q' ∉ l) : containsL ['-', 'Q'] l = false := by
  induction l with
  | nil => rfl
  | cons c cs ih =>
    have hcs : 'Q' ∉ cs := fun hm => h (List.mem_cons_of_mem c hm)
    simp [containsL, strStarts, strStarts_q_false hcs, ih hcs]

lemma parseYearQuarter_none_noQ {s : Str} (h : 'Q' ∉ goUpper (goTrim s)) :
    parseYearQuarter s = none := by
  unfold parseYearQuarter
  simp [contains_hq_false h, contains_q_false h]

lemma ne_Q_of_digit {c : Char} (h : isDigitC c = true) : c ≠ 'Q' :=
  isDigitC_ne h (by decide)

lemma digits_no_space {l : Str} (hd : isDigitsL l = true) :
    ∀ c ∈ l, goIsSpace c = false :=
  fun c hc => goIsSpace_digit (isDigitsL_mem hd hc)

/-! ### The month validation property of `normalizePeriod` (claim C7) -/

section MonthValidation

variable {a b c d e f : Char}

lemma mv_digits6 (h1 : isDigitC a = true) (h2 : isDigitC b = true)
    (h3 : isDigitC c = true) (h4 : isDigitC d = true) (h5 : isDigitC e = true)
    (h6 : isDigitC f = true) : isDigitsL [a, b, c, d, e, f] = true := by
  simp [isDigitsL, h1, h2, h3, h4, h5, h6]

lemma mv_trim6 (h1 : isDigitC a = true) (h2 : isDigitC b = true)
    (h3 : isDigitC c = true) (h4 : isDigitC d = true) (h5 : isDigitC e = true)
    (h6 : isDigitC f = true) : goTrim [a, b, c, d, e, f] = [a, b, c, d, e, f] :=
  goTrim_eq_self (digits_no_space (mv_digits6 h1 h2 h3 h4 h5 h6))

lemma mv_trim7 (h1 : isDigitC a = true) (h2 : isDigitC b = true)
    (h3 : isDigitC c = true) (h4 : isDigitC d = true) (h5 : isDigitC e = true)
    (h6 : isDigitC f = true) : goTrim [a, b, c, d, '-', e, f] = [a, b, c, d, '-', e, f] := by
  refine goTrim_eq_self ?_
  intro x hx
  simp only [List.mem_cons, List.not_mem_nil, or_false] at hx
  rcases hx with rfl | rfl | rfl | rfl | rfl | rfl | rfl
  · exact goIsSpace_digit h1
  · exact goIsSpace_digit h2
  · exact goIsSpace_digit h3
  · exact goIsSpace_digit h4
  · decide
  · exact goIsSpace_digit h5
  · exact goIsSpace_digit h6

lemma mv_up6 (h1 : isDigitC a = true) (h2 : isDigitC b = true)
    (h3 : isDigitC c = true) (h4 : isDigitC d = true) (h5 : isDigitC e = true)
    (h6 : isDigitC f = true) : goUpper [a, b, c, d, e, f] = [a, b, c, d, e, f] := by
  simp [goUpper, upC_digit h1, upC_digit h2, upC_digit h3, upC_digit h4,
    upC_digit h5, upC_digit h6]

lemma mv_up7 (h1 : isDigitC a = true) (h2 : isDigitC b = true)
    (h3 : isDigitC c = true) (h4 : isDigitC d = true) (h5 : isDigitC e = true)
    (h6 : isDigitC f = true) : goUpper [a, b, c, d, '-', e, f] = [a, b, c, d, '-', e, f] := by
  simp [goUpper, upC_digit h1, upC_digit h2, upC_digit h3, upC_digit h4,
    upC_digit h5, upC_digit h6]
  decide

lemma mv_noQ6 (h1 : isDigitC a = true) (h2 : isDigitC b = true)
    (h3 : isDigitC c = true) (h4 : isDigitC d = true) (h5 : isDigitC e = true)
    (h6 : isDigitC f = true) : 'Q' ∉ ([a, b, c, d, e, f] : Str) := by
  intro hm
  simp only [List.mem_cons, List.not_mem_nil, or_false] at hm
  rcases hm with h | h | h | h | h | h <;>
    first
      | exact ne_Q_of_digit h1 h.symm
      | exact ne_Q_of_digit h2 h.symm
      | exact ne_Q_of_digit h3 h.symm
      | exact ne_Q_of_digit h4 h.symm
      | exact ne_Q_of_digit h5 h.symm
      | exact ne_Q_of_digit h6 h.symm

lemma mv_noQ7 (h1 : isDigitC a = true) (h2 : isDigitC b = true)
    (h3 : isDigitC c = true) (h4 : isDigitC d = true) (h5 : isDigitC e = true)
    (h6 : isDigitC f = true) : 'Q' ∉ ([a, b, c, d, '-', e, f] : Str) := by
  intro hm
  simp only [List.mem_cons, List.not_mem_nil, or_false] at hm
  rcases hm with h | h | h | h | h | h | h <;>
    first
      | exact ne_Q_of_digit h1 h.symm
      | exact ne_Q_of_digit h2 h.symm
      | exact ne_Q_of_digit h3 h.symm
      | exact ne_Q_of_digit h4 h.symm
      | exact ne_Q_of_digit h5 h.symm
      | exact ne_Q_of_digit h6 h.symm
      | exact absurd h (by decide)

lemma mv_digits4 (h1 : isDigitC a = true) (h2 : isDigitC b = true)
    (h3 : isDigitC c = true) (h4 : isDigitC d = true) :
    isDigitsL [a, b, c, d] = true := by
  simp [isDigitsL, h1, h2, h3, h4]

lemma mv_digits2 (h5 : isDigitC e = true) (h6 : isDigitC f = true) :
    isDigitsL [e, f] = true := by
  simp [isDigitsL, h5, h6]

lemma mv_dv2 : digitsVal ([e, f] : Str) = digitVal e * 10 + digitVal f := by
  simp [digitsVal]

lemma mv_atoi4 (h1 : isDigitC a = true) (h2 : isDigitC b = true)
    (h3 : isDigitC c = true) (h4 : isDigitC d = true) : goAtoi [a, b, c, d] = some ((digitsVal [a, b, c, d] : Nat) : Int) := by
  refine goAtoi_of_digits (by simp) (mv_digits4 h1 h2 h3 h4) ?_
  have := digitsVal_lt (mv_digits4 h1 h2 h3 h4)
  norm_num at this
  unfold maxInt64
  omega

lemma mv_year_le (h1 : isDigitC a = true) (h2 : isDigitC b = true)
    (h3 : isDigitC c = true) (h4 : isDigitC d = true) :
    digitsVal [a, b, c, d] ≤ 9999 := by
  have := digitsVal_lt (mv_digits4 h1 h2 h3 h4)
  norm_num at this
  omega

lemma mv_atoi2 (h5 : isDigitC e = true) (h6 : isDigitC f = true) :
    goAtoi [e, f] = some ((digitVal e * 10 + digitVal f : Nat) : Int) := by
  rw [← mv_dv2]
  refine goAtoi_of_digits (by simp) (mv_digits2 h5 h6) ?_
  have := digitsVal_lt (mv_digits2 h5 h6)
  norm_num at this
  unfold maxInt64
  omega

/-- C7: on the `YYYYMM` and `YYYY-MM` shapes, `normalizePeriod` yields a
canonical Month period exactly when the month is in 1..12, and yields no
parse at all (no quarter/year fallback) for month 0 or 13. -/
theorem normalizePeriod_month_validation (h1 : isDigitC a = true)
    (h2 : isDigitC b = true) (h3 : isDigitC c = true) (h4 : isDigitC d = true)
    (h5 : isDigitC e = true) (h6 : isDigitC f = true) :
    ((1 ≤ digitVal e * 10 + digitVal f ∧ digitVal e * 10 + digitVal f ≤ 12) →
      (∃ p, normalizePeriod [a, b, c, d, e, f] = some (ptM, p) ∧
        isCanonMonth p = true) ∧
      (∃ p, normalizePeriod [a, b, c, d, '-', e, f] = some (ptM, p) ∧
        isCanonMonth p = true)) ∧
    ((digitVal e * 10 + digitVal f = 0 ∨ digitVal e * 10 + digitVal f = 13) →
      normalizePeriod [a, b, c, d, e, f] = none ∧
      normalizePeriod [a, b, c, d, '-', e, f] = none) := by
  have htrim6 := mv_trim6 h1 h2 h3 h4 h5 h6
  have htrim7 := mv_trim7 h1 h2 h3 h4 h5 h6
  have hatoi4 := mv_atoi4 h1 h2 h3 h4
  have hatoi2 := mv_atoi2 h5 h6
  have hyle := mv_year_le h1 h2 h3 h4
  have hdrop : goAtoi (List.drop 4 [a, b, c, d, e, f]) =
      some ((digitVal e * 10 + digitVal f : Nat) : Int) := hatoi2
  have htake : goAtoi (List.take 4 [a, b, c, d, e, f]) =
      some ((digitsVal [a, b, c, d] : Nat) : Int) := hatoi4
  have hsplit7 : splitC '-' [a, b, c, d, '-', e, f] = [[a, b, c, d], [e, f]] := by
    have hx : '-' ∉ ([a, b, c, d] : Str) :=
      hyphen_not_mem_digits (mv_digits4 h1 h2 h3 h4)
    have := splitC_append hx [e, f]
    rw [splitC_sepFree (hyphen_not_mem_digits (mv_digits2 h5 h6))] at this
    exact this
  constructor
  · rintro ⟨hm1, hm2⟩
    have hmI1 : (1 : Int) ≤ ((digitVal e * 10 + digitVal f : Nat) : Int) := by
      exact_mod_cast hm1
    have hmI2 : ((digitVal e * 10 + digitVal f : Nat) : Int) ≤ 12 := by
      exact_mod_cast hm2
    have hsix : pymSix [a, b, c, d, e, f] =
        some (((digitsVal [a, b, c, d] : Nat) : Int),
          ((digitVal e * 10 + digitVal f : Nat) : Int)) := by
      unfold pymSix
      rw [if_pos ⟨by simp, mv_digits6 h1 h2 h3 h4 h5 h6⟩, hdrop, htake]
      simp only [Option.getD_some]
      rw [if_pos ⟨hmI1, hmI2⟩]
    have hpym6 : parseYearMonth [a, b, c, d, e, f] =
        some (((digitsVal [a, b, c, d] : Nat) : Int),
          ((digitVal e * 10 + digitVal f : Nat) : Int)) := by
      unfold parseYearMonth
      rw [htrim6, hsix]
    have hpym7 : parseYearMonth [a, b, c, d, '-', e, f] =
        some (((digitsVal [a, b, c, d] : Nat) : Int),
          ((digitVal e * 10 + digitVal f : Nat) : Int)) := by
      unfold parseYearMonth
      rw [htrim7]
      have hsix7 : pymSix [a, b, c, d, '-', e, f] = none := by
        unfold pymSix
        rw [if_neg]
        rintro ⟨hlen, -⟩
        simp at hlen
      rw [hsix7]
      unfold pymHyphen
      rw [hsplit7]
      simp [hatoi4, hatoi2]
      omega
    have hy0 : (0 : Int) ≤ ((digitsVal [a, b, c, d] : Nat) : Int) :=
      Int.natCast_nonneg _
    have hy1 : ((digitsVal [a, b, c, d] : Nat) : Int) ≤ 9999 := by
      exact_mod_cast hyle
    constructor
    · refine ⟨_, ?_, canonMonth_fmt hy0 hy1 hmI1 hmI2⟩
      unfold normalizePeriod
      rw [htrim6, hpym6]
      simp [htrim6]
    · refine ⟨_, ?_, canonMonth_fmt hy0 hy1 hmI1 hmI2⟩
      unfold normalizePeriod
      rw [htrim7, hpym7]
      simp [htrim7]
  · intro hbad
    have hmno : ¬(1 ≤ ((digitVal e * 10 + digitVal f : Nat) : Int) ∧
        ((digitVal e * 10 + digitVal f : Nat) : Int) ≤ 12) := by
      rcases hbad with hb | hb <;> rw [hb] <;> norm_num
    have hsix6 : pymSix [a, b, c, d, e, f] = none := by
      unfold pymSix
      rw [if_pos ⟨by simp, mv_digits6 h1 h2 h3 h4 h5 h6⟩, hdrop]
      simp only [Option.getD_some]
      rw [if_neg hmno]
    have hhyp6 : pymHyphen [a, b, c, d, e, f] = none := by
      unfold pymHyphen
      rw [splitC_sepFree (hyphen_not_mem_digits (mv_digits6 h1 h2 h3 h4 h5 h6))]
    have hpym6 : parseYearMonth [a, b, c, d, e, f] = none := by
      unfold parseYearMonth
      rw [htrim6, hsix6, hhyp6]
    have hsix7 : pymSix [a, b, c, d, '-', e, f] = none := by
      unfold pymSix
      rw [if_neg]
      rintro ⟨hlen, -⟩
      simp at hlen
    have hmnoN : ¬(1 ≤ digitVal e * 10 + digitVal f ∧
        digitVal e * 10 + digitVal f ≤ 12) := by
      rcases hbad with hb | hb <;> omega
    have hhyp7 : pymHyphen [a, b, c, d, '-', e, f] = none := by
      unfold pymHyphen
      rw [hsplit7]
      simp [hatoi4, hatoi2]
      rcases hbad with hb | hb <;> omega
    have hpym7 : parseYearMonth [a, b, c, d, '-', e, f] = none := by
      unfold parseYearMonth
      rw [htrim7, hsix7, hhyp7]
    have hq6 : parseYearQuarter [a, b, c, d, e, f] = none := by
      refine parseYearQuarter_none_noQ ?_
      rw [htrim6, mv_up6 h1 h2 h3 h4 h5 h6]
      exact mv_noQ6 h1 h2 h3 h4 h5 h6
    have hq7 : parseYearQuarter [a, b, c, d, '-', e, f] = none := by
      refine parseYearQuarter_none_noQ ?_
      rw [htrim7, mv_up7 h1 h2 h3 h4 h5 h6]
      exact mv_noQ7 h1 h2 h3 h4 h5 h6
    have hpy6 : parseYear [a, b, c, d, e, f] = none := by
      unfold parseYear
      rw [if_neg]
      rintro ⟨hlen, -⟩
      rw [htrim6] at hlen
      simp at hlen
    have hpy7 : parseYear [a, b, c, d, '-', e, f] = none := by
      unfold parseYear
      rw [if_neg]
      rintro ⟨hlen, -⟩
      rw [htrim7] at hlen
      simp at hlen
    constructor
    · unfold normalizePeriod
      rw [htrim6, hpym6, hq6, hpy6]
      simp [htrim6]
    · unfold normalizePeriod
      rw [htrim7, hpym7, hq7, hpy7]
      simp [htrim7]

end MonthValidation

/-! ### Loosely-typed JSON rows and the payload field extractor

A decoded row (`map[string]any`) is modelled as an association list.  A JSON
number surfaces as `num lit`, carrying the decimal string the Go code sees:
the `json.Number` literal under the wits decoder's `UseNumber`, or the
`strconv.FormatFloat` rendering of a `float64` under plain decoding (the
source's `getString`/`getFloat` numeric cases all go through that string).
`ParseFloat` is modelled on decimal/exponent forms (hex floats and
infinities never appear in these APIs). -/

inductive GoVal where
  | str (s : Str)
  | num (lit : Str)
  | boolean (b : Bool)
  | null
  | other
deriving DecidableEq

abbrev GoRow := List (Str × GoVal)

/-- Exact-key lookup in a Go map (`row[key]`). -/
def mapLookup (row : GoRow) (k : Str) : Option GoVal :=
  (row.find? (fun kv => kv.1 == k)).map (·.2)

/-- `strings.EqualFold` (ASCII model). -/
def goEqualFold (a b : Str) : Bool := goLower a == goLower b

/-- Source `getValue`: try exact key matches in candidate order, then a
case-insensitive scan over the row. -/
def getValue (row : GoRow) (keys : List Str) : Option GoVal :=
  match keys.findSome? (mapLookup row) with
  | some v => some v
  | none =>
    row.findSome? fun kv =>
      if keys.any (fun k => goEqualFold kv.1 k) then some kv.2 else none

/-- Source `getString`: strings are trimmed (empty after trim counts as
absent); numeric values yield their decimal string. -/
def getString (row : GoRow) (keys : List Str) : Option Str :=
  match getValue row keys with
  | some (.str s) => if goTrim s = [] then none else some (goTrim s)
  | some (.num lit) => some lit
  | some _ => none
  | none => none

/-- Fractional-part-aware decimal mantissa for `strconv.ParseFloat`. -/
def parseMantissa (l : Str) : Option ℚ :=
  match splitC '.' l with
  | [ip] => if ip ≠ [] ∧ isDigitsL ip = true then some ((digitsVal ip : ℚ)) else none
  | [ip, fp] =>
    if isDigitsL ip = true ∧ isDigitsL fp = true ∧ (ip ≠ [] ∨ fp ≠ []) then
      some ((digitsVal ip : ℚ) + (digitsVal fp : ℚ) / ((10 : ℚ) ^ fp.length))
    else none
  | _ => none

/-- `strconv.ParseFloat` on the decimal and exponent forms these APIs emit. -/
def goParseFloat (l : Str) : Option ℚ :=
  match l with
  | [] => none
  | _ =>
    let body : ℚ × Str :=
      match l with
      | '+' :: r => (1, r)
      | '-' :: r => (-1, r)
      | r => (1, r)
    let m := body.2.takeWhile fun c => !(c == 'e' || c == 'E')
    match body.2.dropWhile (fun c => !(c == 'e' || c == 'E')) with
    | [] => (parseMantissa m).map (body.1 * ·)
    | _ :: expPart =>
      match parseMantissa m, goAtoi expPart with
      | some mv, some ex => some (body.1 * mv * (10 : ℚ) ^ ex)
      | _, _ => none

/-- Source `getFloat`: numeric values parse their decimal string; strings are
trimmed and parsed; everything else is absent. -/
def getFloat (row : GoRow) (keys : List Str) : Option ℚ :=
  match getValue row keys with
  | some (.num lit) => goParseFloat lit
  | some (.str s) => goParseFloat (goTrim s)
  | _ => none

/-! ### `periodFromRow`, comtrade flavour (falls back to a bare year field) -/

/-- Key candidates for the period field (same list in both packages). -/
def periodKeys : List Str :=
  ["Period".toList, "period".toList, "Time".toList, "time".toList]

def yrKeys : List Str := ["yr".toList, "year".toList, "Year".toList]

def witsYearKeys : List Str := ["Year".toList, "year".toList]

def witsMonthKeys : List Str := ["Month".toList, "month".toList]

def witsQuarterKeys : List Str := ["Quarter".toList, "quarter".toList]

/-- The `yr`/`year`/`Year` fallback of the comtrade `periodFromRow`. -/
def periodFromRowCYr (row : GoRow) : Option (Str × Str) :=
  match getString row yrKeys with
  | some v =>
    match parseYear v with
    | some y => some (ptY, fmtPad 4 y)
    | none => none
  | none => none

/-- Source `periodFromRow` (comtrade): normalize the period field if present,
else fall back to the year field. -/
def periodFromRowC (row : GoRow) : Option (Str × Str) :=
  match getString row periodKeys with
  | some v =>
    match normalizePeriod v with
    | some r => some r
    | none => periodFromRowCYr row
  | none => periodFromRowCYr row

/-! ### `periodFromRow`, wits flavour (Year/Month/Quarter field fallback) -/

/-- Quarter-or-year tail of the wits fallback: lines 1954-1960 of the source. -/
def witsQuarterOrYear (y quarter : Str) : Option (Str × Str) :=
  if quarter ≠ [] then
    match goAtoi quarter with
    | some qn =>
      if 1 ≤ qn ∧ qn ≤ 4 then some (ptQ, y ++ '-' :: 'Q' :: intRepr qn)
      else some (ptY, y)
    | none => some (ptY, y)
  else some (ptY, y)

/-- The Year/Month/Quarter field fallback of the wits `periodFromRow`: the raw
Year field is reformatted only when it parses as a 4-digit year, and is used
verbatim otherwise. -/
def witsFallbackPeriod (year month quarter : Str) : Option (Str × Str) :=
  if year = [] then none
  else
    let y := match parseYear year with
      | some py => fmtPad 4 py
      | none => year
    if month ≠ [] then
      match goAtoi month with
      | some mn =>
        if 1 ≤ mn ∧ mn ≤ 12 then some (ptM, y ++ '-' :: fmtPad 2 mn)
        else witsQuarterOrYear y quarter
      | none => witsQuarterOrYear y quarter
    else witsQuarterOrYear y quarter

/-- Source `periodFromRow` (wits): normalize the period field if present, else
use the Year/Month/Quarter fields. -/
def periodFromRowW (row : GoRow) : Option (Str × Str) :=
  match getString row periodKeys with
  | some raw =>
    match normalizePeriod raw with
    | some r => some r
    | none =>
      witsFallbackPeriod ((getString row witsYearKeys).getD [])
        ((getString row witsMonthKeys).getD [])
        ((getString row witsQuarterKeys).getD [])
  | none =>
    witsFallbackPeriod ((getString row witsYearKeys).getD [])
      ((getString row witsMonthKeys).getD [])
      ((getString row witsQuarterKeys).getD [])

/-! ### Canonicality facts for the row-level period decoders -/

lemma witsQuarterOrYear_canon {yv : Int} (hy0 : 0 ≤ yv) (hy1 : yv ≤ 9999)
    {quarter t p : Str} (h : witsQuarterOrYear (fmtPad 4 yv) quarter = some (t, p)) :
    (t = ptM → isCanonMonth p = true) ∧ (t = ptQ → isCanonQuarter p = true) ∧
      (t = ptY → isCanonYear p = true) := by
  unfold witsQuarterOrYear at h
  split at h
  · cases ha : goAtoi quarter with
    | some qn =>
      simp only [ha] at h
      split at h
      · rename_i hq
        rw [Option.some_inj] at h
        injection h with h1 h2
        subst h1
        refine ⟨fun hMQ => absurd hMQ (by decide), fun _ => ?_,
          fun hYQ => absurd hYQ (by decide)⟩
        rw [← h2]
        exact canonQuarter_fmt hy0 hy1 hq.1 hq.2
      · rw [Option.some_inj] at h
        injection h with h1 h2
        subst h1
        refine ⟨fun hMY => absurd hMY (by decide), fun hQY => absurd hQY (by decide),
          fun _ => ?_⟩
        rw [← h2]
        exact canonYear_fmt hy0 hy1
    | none =>
      simp only [ha] at h
      rw [Option.some_inj] at h
      injection h with h1 h2
      subst h1
      refine ⟨fun hMY => absurd hMY (by decide), fun hQY => absurd hQY (by decide),
        fun _ => ?_⟩
      rw [← h2]
      exact canonYear_fmt hy0 hy1
  · rw [Option.some_inj] at h
    injection h with h1 h2
    subst h1
    refine ⟨fun hMY => absurd hMY (by decide), fun hQY => absurd hQY (by decide),
      fun _ => ?_⟩
    rw [← h2]
    exact canonYear_fmt hy0 hy1

lemma witsFallbackPeriod_canon {year month quarter : Str} {yv : Int}
    (hy : parseYear year = some yv) {t p : Str}
    (h : witsFallbackPeriod year month quarter = some (t, p)) :
    (t = ptM → isCanonMonth p = true) ∧ (t = ptQ → isCanonQuarter p = true) ∧
      (t = ptY → isCanonYear p = true) := by
  obtain ⟨hy0, hy1⟩ := parseYear_bounds hy
  unfold witsFallbackPeriod at h
  split at h
  · cases h
  · simp only [hy] at h
    split at h
    · cases ha : goAtoi month with
      | some mn =>
        simp only [ha] at h
        split at h
        · rename_i hm
          rw [Option.some_inj] at h
          injection h with h1 h2
          subst h1
          refine ⟨fun _ => ?_, fun hQM => absurd hQM (by decide),
            fun hYM => absurd hYM (by decide)⟩
          rw [← h2]
          exact canonMonth_fmt hy0 hy1 hm.1 hm.2
        · exact witsQuarterOrYear_canon hy0 hy1 h
      | none =>
        simp only [ha] at h
        exact witsQuarterOrYear_canon hy0 hy1 h
    · exact witsQuarterOrYear_canon hy0 hy1 h

lemma periodFromRowCYr_canon {row : GoRow} {t p : Str}
    (h : periodFromRowCYr row = some (t, p)) :
    t = ptY ∧ isCanonYear p = true := by
  unfold periodFromRowCYr at h
  cases hs : getString row yrKeys with
  | none => simp [hs] at h
  | some v =>
    simp only [hs] at h
    cases hy : parseYear v with
    | none => simp [hy] at h
    | some y =>
      simp only [hy] at h
      rw [Option.some_inj] at h
      injection h with h1 h2
      obtain ⟨hy0, hy1⟩ := parseYear_bounds hy
      exact ⟨h1.symm, h2 ▸ canonYear_fmt hy0 hy1⟩

lemma periodFromRowC_canon {row : GoRow} {t p : Str}
    (h : periodFromRowC row = some (t, p)) :
    (t = ptM → isCanonMonth p = true) ∧ (t = ptY → isCanonYear p = true) := by
  unfold periodFromRowC at h
  cases hs : getString row periodKeys with
  | none =>
    simp only [hs] at h
    obtain ⟨rfl, hc⟩ := periodFromRowCYr_canon h
    exact ⟨fun hMY => absurd hMY.symm (by decide), fun _ => hc⟩
  | some v =>
    simp only [hs] at h
    cases hn : normalizePeriod v with
    | some r =>
      simp only [hn, Option.some_inj] at h
      subst h
      exact ⟨fun hM => normalizePeriod_month_canon (hM ▸ hn),
        fun hY => normalizePeriod_year_canon (hY ▸ hn)⟩
    | none =>
      simp only [hn] at h
      obtain ⟨rfl, hc⟩ := periodFromRowCYr_canon h
      exact ⟨fun hMY => absurd hMY.symm (by decide), fun _ => hc⟩

/-- C2 (counterexample): two decoded periods that violate the canonical-form
invariant: `normalizePeriod` accepts the quarter token `12345-Q2` and emits a
five-digit year, and the wits `periodFromRow` fallback emits the raw Year
field `20X5` as a Year period. -/
theorem periodInvariant_counterexample :
    normalizePeriod "12345-Q2".toList = some (ptQ, "12345-Q2".toList) ∧
      isCanonQuarter "12345-Q2".toList = false ∧
      periodFromRowW [("Year".toList, GoVal.str "20X5".toList)] =
        some (ptY, "20X5".toList) ∧
      isCanonYear "20X5".toList = false := by
  refine ⟨by decide, by decide, ?_, by decide⟩
  decide

/-- C2 (amended): every Month or Year period produced by `normalizePeriod` is
canonical; a Quarter period is canonical whenever the parsed year lies in
0..9999; the wits Year/Month/Quarter fallback is canonical whenever the Year
field parses as a 4-digit year; and every comtrade `periodFromRow` result of
Month or Year type is canonical. -/
theorem periodInvariant_amended :
    (∀ s t p, normalizePeriod s = some (t, p) →
      (t = ptM → isCanonMonth p = true) ∧ (t = ptY → isCanonYear p = true)) ∧
    (∀ s p y q, normalizePeriod s = some (ptQ, p) →
      parseYearQuarter (goTrim s) = some (y, q) → 0 ≤ y → y ≤ 9999 →
      isCanonQuarter p = true) ∧
    (∀ year month quarter yv t p, parseYear year = some yv →
      witsFallbackPeriod year month quarter = some (t, p) →
      (t = ptM → isCanonMonth p = true) ∧ (t = ptQ → isCanonQuarter p = true) ∧
        (t = ptY → isCanonYear p = true)) ∧
    (∀ row t p, periodFromRowC row = some (t, p) →
      (t = ptM → isCanonMonth p = true) ∧ (t = ptY → isCanonYear p = true)) := by
  refine ⟨?_, ?_, ?_, ?_⟩
  · intro s t p h
    exact ⟨fun hM => normalizePeriod_month_canon (hM ▸ h),
      fun hY => normalizePeriod_year_canon (hY ▸ h)⟩
  · intro s p y q h hq hy0 hy1
    exact normalizePeriod_quarter_canon h hq hy0 hy1
  · intro year month quarter yv t p hy h
    exact witsFallbackPeriod_canon hy h
  · intro row t p h
    exact periodFromRowC_canon h

/-- C2 (witness): the amended invariant applied to the concrete token
`202002`. -/
theorem periodInvariant_amended_witness :
    isCanonMonth "2020-02".toList = true :=
  (periodInvariant_amended.1 "202002".toList ptM "2020-02".toList (by decide)).1 rfl

/-- C7: for every `YYYYMM` / `YYYY-MM` input with month in 1..12 the
normalizer returns Month granularity with a canonical zero-padded `YYYY-MM`
string, and for month 0 or 13 it returns no parse at all. -/
theorem normalizePeriod_month_validation_claim (a b c d e f : Char)
    (h1 : isDigitC a = true) (h2 : isDigitC b = true) (h3 : isDigitC c = true)
    (h4 : isDigitC d = true) (h5 : isDigitC e = true) (h6 : isDigitC f = true) :
    ((1 ≤ digitVal e * 10 + digitVal f ∧ digitVal e * 10 + digitVal f ≤ 12) →
      (∃ p, normalizePeriod [a, b, c, d, e, f] = some (ptM, p) ∧
        isCanonMonth p = true) ∧
      (∃ p, normalizePeriod [a, b, c, d, '-', e, f] = some (ptM, p) ∧
        isCanonMonth p = true)) ∧
    ((digitVal e * 10 + digitVal f = 0 ∨ digitVal e * 10 + digitVal f = 13) →
      normalizePeriod [a, b, c, d, e, f] = none ∧
      normalizePeriod [a, b, c, d, '-', e, f] = none) :=
  normalizePeriod_month_validation h1 h2 h3 h4 h5 h6

/-- C7 (witness): instantiated at `202001` / `2020-01` and at `202013` /
`2020-13`. -/
theorem normalizePeriod_month_validation_witness :
    ((∃ p, normalizePeriod "202001".toList = some (ptM, p) ∧
        isCanonMonth p = true) ∧
      (∃ p, normalizePeriod "2020-01".toList = some (ptM, p) ∧
        isCanonMonth p = true)) ∧
      (normalizePeriod "202013".toList = none ∧
        normalizePeriod "2020-13".toList = none) :=
  ⟨(normalizePeriod_month_validation_claim '2' '0' '2' '0' '0' '1'
      (by decide) (by decide) (by decide) (by decide) (by decide) (by decide)).1
      (by decide),
    (normalizePeriod_month_validation_claim '2' '0' '2' '0' '1' '3'
      (by decide) (by decide) (by decide) (by decide) (by decide) (by decide)).2
      (by decide)⟩

/-! ### The observation model and the latest-observation selector

`model.Observation`'s `IngestedAt`/`SourceUpdatedAt` (`time.Time`) are not
read by any embedded code path and are omitted; `ValueUSD` is a `ℚ` stand-in
for `float64` (never compared arithmetically here). -/

structure Observation where
  provider : Str := []
  reporterISO3 : Str := []
  partnerISO3 : Str := []
  flow : Str := []
  periodType : Str := []
  period : Str := []
  valueUSD : ℚ := 0
deriving DecidableEq

/-- Source `periodPriority`: Month=3, Quarter=2, Year=1, unknown=0. -/
def periodPriority (periodType : Str) : Nat :=
  if periodType = ptM then 3
  else if periodType = ptQ then 2
  else if periodType = ptY then 1
  else 0

/-- Source `periodKey`: chronological key within one granularity. -/
def periodKey (periodType period : Str) : Int :=
  if periodType = ptM then
    match parseYearMonth period with
    | some (y, m) => y * 100 + m
    | none => 0
  else if periodType = ptQ then
    match parseYearQuarter period with
    | some (y, q) => y * 10 + q
    | none => 0
  else if periodType = ptY then
    match parseYear period with
    | some y => y
    | none => 0
  else 0

/-- Source `compareObservation`: priority first, period key on ties. -/
def compareObservation (a b : Observation) : Int :=
  if periodPriority a.periodType ≠ periodPriority b.periodType then
    if periodPriority a.periodType > periodPriority b.periodType then 1 else -1
  else if periodKey a.periodType a.period > periodKey b.periodType b.period then 1
  else if periodKey a.periodType a.period < periodKey b.periodType b.period then -1
  else 0

/-- Source `pickLatest`: scan for the maximum under `compareObservation`,
keeping the earlier element on ties. -/
def pickLatest : List Observation → Option Observation
  | [] => none
  | o :: rest =>
    some (rest.foldl (fun sel x => if compareObservation x sel > 0 then x else sel) o)

lemma periodPriority_le3 (t : Str) : periodPriority t ≤ 3 := by
  unfold periodPriority
  split_ifs <;> omega

lemma periodPriority_eq3 {t : Str} (h : periodPriority t = 3) : t = ptM := by
  unfold periodPriority at h
  split_ifs at h with h1 h2 h3
  · exact h1
  all_goals omega

lemma pickStep_priority (x acc : Observation) :
    periodPriority acc.periodType ≤
      periodPriority ((if compareObservation x acc > 0 then x else acc).periodType) ∧
    periodPriority x.periodType ≤
      periodPriority ((if compareObservation x acc > 0 then x else acc).periodType) := by
  by_cases hne : periodPriority x.periodType ≠ periodPriority acc.periodType
  · by_cases hgt : periodPriority x.periodType > periodPriority acc.periodType
    · have hc : compareObservation x acc = 1 := by
        simp [compareObservation, hne, hgt]
      simp [hc]
      omega
    · have hc : compareObservation x acc = -1 := by
        simp [compareObservation, hne, hgt]
      simp [hc]
      omega
  · push_neg at hne
    by_cases hc : compareObservation x acc > 0 <;> simp [hc] <;> omega

lemma pickFold_acc_le (rest : List Observation) : ∀ acc : Observation,
    periodPriority acc.periodType ≤
      periodPriority ((rest.foldl
        (fun sel x => if compareObservation x sel > 0 then x else sel) acc).periodType) := by
  induction rest with
  | nil => intro acc; exact le_refl _
  | cons x xs ih =>
    intro acc
    calc periodPriority acc.periodType
        ≤ periodPriority ((if compareObservation x acc > 0 then x else acc).periodType) :=
          (pickStep_priority x acc).1
      _ ≤ _ := ih _

lemma pickFold_mem_le (rest : List Observation) : ∀ acc : Observation, ∀ x ∈ rest,
    periodPriority x.periodType ≤
      periodPriority ((rest.foldl
        (fun sel x => if compareObservation x sel > 0 then x else sel) acc).periodType) := by
  induction rest with
  | nil => intro acc x hx; cases hx
  | cons y ys ih =>
    intro acc x hx
    rcases List.mem_cons.mp hx with rfl | hx
    · calc periodPriority x.periodType
          ≤ periodPriority ((if compareObservation x acc > 0 then x else acc).periodType) :=
            (pickStep_priority x acc).2
        _ ≤ _ := pickFold_acc_le ys _
    · exact ih _ x hx

/-- The Month observation for 2020-01 of the spec's granularity-dominance
example. -/
def obsMonth202001 : Observation :=
  { reporterISO3 := "KOR".toList, partnerISO3 := "USA".toList,
    flow := "export".toList, periodType := ptM, period := "2020-01".toList,
    valueUSD := 1 }

/-- The Year observation for 2024 of the spec's granularity-dominance
example. -/
def obsYear2024 : Observation :=
  { reporterISO3 := "KOR".toList, partnerISO3 := "USA".toList,
    flow := "export".toList, periodType := ptY, period := "2024".toList,
    valueUSD := 2 }

/-- C4: `pickLatest` orders by granularity priority first, so any list
containing a Month observation selects a Month observation; in particular the
pair (Month 2020-01, Year 2024) selects the Month observation in either
order. -/
theorem pickLatest_month_dominance (l : List Observation) (o : Observation)
    (hmem : o ∈ l) (hM : o.periodType = ptM) :
    (∃ o', pickLatest l = some o' ∧ o'.periodType = ptM) ∧
      pickLatest [obsMonth202001, obsYear2024] = some obsMonth202001 ∧
      pickLatest [obsYear2024, obsMonth202001] = some obsMonth202001 := by
  refine ⟨?_, by decide, by decide⟩
  cases l with
  | nil => cases hmem
  | cons h t =>
    refine ⟨_, rfl, ?_⟩
    have h3 : 3 ≤ periodPriority ((t.foldl
        (fun sel x => if compareObservation x sel > 0 then x else sel) h).periodType) := by
      rcases List.mem_cons.mp hmem with rfl | hmem'
      · have := pickFold_acc_le t o
        rw [hM] at this
        simpa [periodPriority] using this
      · have := pickFold_mem_le t h o hmem'
        rw [hM] at this
        simpa [periodPriority] using this
    have hle := periodPriority_le3 ((t.foldl
      (fun sel x => if compareObservation x sel > 0 then x else sel) h).periodType)
    exact periodPriority_eq3 (by omega)

/-- C4 (witness): the dominance theorem applied to the two-element example
list. -/
theorem pickLatest_month_dominance_witness :
    (∃ o', pickLatest [obsMonth202001, obsYear2024] = some o' ∧
      o'.periodType = ptM) ∧
      pickLatest [obsMonth202001, obsYear2024] = some obsMonth202001 ∧
      pickLatest [obsYear2024, obsMonth202001] = some obsMonth202001 :=
  pickLatest_month_dominance [obsMonth202001, obsYear2024] obsMonth202001
    (by decide) rfl

/-! ### Reference code resolution (`resolveCode`) -/

/-- Go map lookup in the ISO3→code map. -/
def codesLookup (codes : List (Str × Str)) (k : Str) : Option Str :=
  (codes.find? (fun kv => kv.1 == k)).map (·.2)

/-- The shared tail of `resolveCode`: ISO3-as-code fallback or the
`missing code` error naming the kind and the ISO3. -/
def resolveFallback (allow : Bool) (kind n : Str) : Except Str Str :=
  if allow then .ok n
  else .error ("comtrade: missing ".toList ++ kind ++ " code for ".toList ++ n)

/-- Source `resolveCode`: trim and uppercase the ISO3, require it non-empty,
return a present non-empty mapped code, else apply the fallback policy. -/
def resolveCode (allow : Bool) (kind iso3 : Str) (codes : List (Str × Str)) :
    Except Str Str :=
  if goUpper (goTrim iso3) = [] then
    .error ("comtrade: ".toList ++ kind ++ " iso3 is required".toList)
  else
    match codesLookup codes (goUpper (goTrim iso3)) with
    | some code =>
      if code ≠ [] then .ok code
      else resolveFallback allow kind (goUpper (goTrim iso3))
    | none => resolveFallback allow kind (goUpper (goTrim iso3))

/-- C8: for a non-empty ISO3 string (already in canonical trimmed/uppercase
form, as ISO3 codes are): a present non-empty mapped code is returned; absent
or empty codes fall back to the ISO3 itself when the policy allows, and
otherwise produce the error naming the kind and the ISO3. -/
theorem resolveCode_spec (allow : Bool) (kind s : Str) (codes : List (Str × Str))
    (hTrim : goTrim s = s) (hUp : goUpper s = s) (hne : s ≠ []) :
    (∀ c, codesLookup codes s = some c → c ≠ [] →
      resolveCode allow kind s codes = .ok c) ∧
    ((codesLookup codes s = none ∨ codesLookup codes s = some []) →
      (allow = true → resolveCode allow kind s codes = .ok s) ∧
      (allow = false → resolveCode allow kind s codes =
        .error ("comtrade: missing ".toList ++ kind ++ " code for ".toList ++ s))) := by
  constructor
  · intro c hc hcne
    unfold resolveCode
    rw [hTrim, hUp, if_neg hne]
    simp only [hc]
    rw [if_pos hcne]
  · intro hl
    constructor
    · intro hall
      subst hall
      unfold resolveCode
      rw [hTrim, hUp, if_neg hne]
      rcases hl with hl | hl <;> simp [hl, resolveFallback]
    · intro hall
      subst hall
      unfold resolveCode
      rw [hTrim, hUp, if_neg hne]
      rcases hl with hl | hl <;> simp [hl, resolveFallback]

/-- C8 (witness): a mapped code is returned for `KOR`. -/
theorem resolveCode_spec_witness :
    resolveCode true "reporter".toList "KOR".toList
      [("KOR".toList, "410".toList)] = .ok "410".toList :=
  (resolveCode_spec true "reporter".toList "KOR".toList
    [("KOR".toList, "410".toList)] (by decide) (by decide) (by decide)).1
    "410".toList (by decide) (by decide)

/-- C10: `resolveCode` normalizes before any lookup: the concrete input
`" kor "` falls back to `"KOR"`; an input that is empty after trimming always
errors, fallback or not; the fallback returns the trimmed uppercased form;
and the map lookup is keyed by the trimmed uppercased form. -/
theorem resolveCode_normalizes :
    resolveCode true "reporter".toList " kor ".toList [] = .ok "KOR".toList ∧
    (∀ allow kind s codes, goUpper (goTrim s) = [] →
      resolveCode allow kind s codes =
        .error ("comtrade: ".toList ++ kind ++ " iso3 is required".toList)) ∧
    (∀ kind s codes, codesLookup codes (goUpper (goTrim s)) = none →
      goUpper (goTrim s) ≠ [] →
      resolveCode true kind s codes = .ok (goUpper (goTrim s))) ∧
    (∀ allow kind s codes c, goUpper (goTrim s) ≠ [] →
      codesLookup codes (goUpper (goTrim s)) = some c → c ≠ [] →
      resolveCode allow kind s codes = .ok c) := by
  refine ⟨rfl, ?_, ?_, ?_⟩
  · intro allow kind s codes hempty
    unfold resolveCode
    rw [if_pos hempty]
  · intro kind s codes hl hne
    unfold resolveCode
    rw [if_neg hne]
    simp [hl, resolveFallback]
  · intro allow kind s codes c hne hc hcne
    unfold resolveCode
    rw [if_neg hne]
    simp only [hc]
    rw [if_pos hcne]

/-- C10 (witness): empty-after-trim input errors even with fallback
enabled. -/
theorem resolveCode_normalizes_witness :
    resolveCode true "partner".toList "   ".toList [] =
      .error ("comtrade: ".toList ++ "partner".toList ++ " iso3 is required".toList) :=
  resolveCode_normalizes.2.1 true "partner".toList "   ".toList [] (by decide)

/-! ### Year-range construction (`buildYearRange` / `yearsBetween`) -/

/-- Source `yearsBetween`: the inclusive ascending run of years, empty when
the count is non-positive (the loop body never runs). -/
def yearsBetween (start e : Int) : List Int :=
  if e - start + 1 ≤ 0 then []
  else (List.range (e - start + 1).toNat).map fun (i : Nat) => start + (i : Int)

/-- Source `buildYearRange`.  `time.Now().UTC().Year()` is passed in as
`current`; `lookback` is the configured lookback. -/
def buildYearRange (current : Int) (from_ to_ : Str) (lookback : Int) :
    Except Str (List Int) :=
  if from_ = [] ∧ to_ = [] then
    .ok (yearsBetween (if current - lookback < 0 then 0 else current - lookback) current)
  else
    let f := if from_ = [] then to_ else from_
    let t := if to_ = [] then from_ else to_
    match parseYear f with
    | none => .error ("comtrade: invalid from year".toList)
    | some start =>
      match parseYear t with
      | none => .error ("comtrade: invalid to year".toList)
      | some e =>
        if start > e then .ok (yearsBetween e start) else .ok (yearsBetween start e)

lemma yearsBetween_mem {start e y : Int} (h : start ≤ e) :
    y ∈ yearsBetween start e ↔ start ≤ y ∧ y ≤ e := by
  unfold yearsBetween
  rw [if_neg (by omega)]
  constructor
  · intro hy
    obtain ⟨i, hi, hiy⟩ := List.mem_map.mp hy
    have hi' := Int.lt_toNat.mp (List.mem_range.mp hi)
    omega
  · rintro ⟨h1, h2⟩
    refine List.mem_map.mpr ⟨(y - start).toNat, List.mem_range.mpr ?_, ?_⟩
    · rw [Int.toNat_lt_toNat (by omega : (0 : Int) < e - start + 1)]
      omega
    · have e1 : ((y - start).toNat : Int) = y - start := Int.toNat_of_nonneg (by omega)
      rw [e1]
      omega

lemma yearsBetween_sorted (start e : Int) :
    (yearsBetween start e).Pairwise (· < ·) := by
  unfold yearsBetween
  split
  · exact List.Pairwise.nil
  · refine List.Pairwise.map _ (fun a b hab => ?_) (List.pairwise_lt_range _)
    show start + (a : Int) < start + (b : Int)
    have : (a : Int) < (b : Int) := by exact_mod_cast hab
    omega

lemma yearsBetween_ne_nil {start e : Int} (h : start ≤ e) :
    yearsBetween start e ≠ [] := by
  unfold yearsBetween
  rw [if_neg (by omega)]
  intro hnil
  have h0 := congrArg List.length hnil
  simp only [List.length_map, List.length_range, List.length_nil] at h0
  have := Int.toNat_eq_zero.mp h0
  omega

/-- C9: `buildYearRange` is order-insensitive in its bounds: for any two
valid 4-digit year strings it returns, in either argument order, the same
non-empty ascending contiguous list covering `min..max` inclusive. -/
theorem buildYearRange_order_insensitive (current lookback : Int) (f t : Str)
    (yf yt : Int) (hf : parseYear f = some yf) (ht : parseYear t = some yt) :
    buildYearRange current f t lookback = buildYearRange current t f lookback ∧
    ∃ l, buildYearRange current f t lookback = .ok l ∧ l ≠ [] ∧
      l.Pairwise (· < ·) ∧ ∀ y, y ∈ l ↔ min yf yt ≤ y ∧ y ≤ max yf yt := by
  have hfne : f ≠ [] := by
    intro he
    rw [he, show parseYear ([] : Str) = none from rfl] at hf
    cases hf
  have htne : t ≠ [] := by
    intro he
    rw [he, show parseYear ([] : Str) = none from rfl] at ht
    cases ht
  have hft : buildYearRange current f t lookback =
      if yf > yt then .ok (yearsBetween yt yf) else .ok (yearsBetween yf yt) := by
    unfold buildYearRange
    rw [if_neg (by tauto)]
    simp only [if_neg hfne, if_neg htne, hf, ht]
  have htf : buildYearRange current t f lookback =
      if yt > yf then .ok (yearsBetween yf yt) else .ok (yearsBetween yt yf) := by
    unfold buildYearRange
    rw [if_neg (by tauto)]
    simp only [if_neg htne, if_neg hfne, hf, ht]
  constructor
  · rw [hft, htf]
    by_cases hgt : yf > yt
    · rw [if_pos hgt, if_neg (show ¬yt > yf by omega)]
    · by_cases hgt2 : yt > yf
      · rw [if_neg hgt, if_pos hgt2]
      · rw [if_neg hgt, if_neg hgt2]
        have heq : yf = yt := by omega
        rw [heq]
  · refine ⟨yearsBetween (min yf yt) (max yf yt), ?_, ?_, ?_, ?_⟩
    · rw [hft]
      rcases le_or_lt yf yt with hle | hlt
      · have h1 : min yf yt = yf := by omega
        have h2 : max yf yt = yt := by omega
        rw [if_neg (show ¬yf > yt by omega), h1, h2]
      · have h1 : min yf yt = yt := by omega
        have h2 : max yf yt = yf := by omega
        rw [if_pos (show yf > yt by omega), h1, h2]
    · exact yearsBetween_ne_nil (by omega)
    · exact yearsBetween_sorted _ _
    · intro y
      exact yearsBetween_mem (by omega)

/-- C9 (witness): the range for (`2024`, `2020`) equals the range for
(`2020`, `2024`) and is the ascending run 2020..2024. -/
theorem buildYearRange_order_insensitive_witness :
    buildYearRange 2025 "2024".toList "2020".toList 5 =
      buildYearRange 2025 "2020".toList "2024".toList 5 ∧
    ∃ l, buildYearRange 2025 "2024".toList "2020".toList 5 = .ok l ∧ l ≠ [] ∧
      l.Pairwise (· < ·) ∧
      ∀ y, y ∈ l ↔ min (2024 : Int) 2020 ≤ y ∧ y ≤ max (2024 : Int) 2020 :=
  buildYearRange_order_insensitive 2025 5 "2024".toList "2020".toList
    2024 2020 (by decide) (by decide)

/-! ### The retry / key-rotation orchestrator (`doRequest`)

An HTTP exchange is modelled by its observable outcome: status code, body,
and the value `parseRetryAfter` computes for it.  The body pairs the raw
bytes with the result of `json.Unmarshal` + `message`-field extraction
(`jsonMessage = none`: not a JSON object; `some none`: a JSON object without
a string `message`; `some (some m)`: message `m`).  A simulation script maps
the index of each issued request to its response; backoff sleeps are no-ops
here and context cancellation is out of scope. -/

structure HTTPBody where
  raw : Str
  jsonMessage : Option (Option Str)
deriving DecidableEq

/-- Source `isQuotaExceeded`: check the JSON `message` field when present,
else the whole (lowercased) body, for the substring `quota`. -/
def isQuotaExceeded (b : HTTPBody) : Bool :=
  if b.raw = [] then false
  else
    match b.jsonMessage with
    | some (some m) => containsL "quota".toList (goLower m)
    | _ => containsL "quota".toList (goLower b.raw)

/-- The errors `doRequest`/`doRequestWithKey` produce.  `quotaExceeded`
models `fmt.Errorf("%w: %s", ErrQuotaExceeded, ...)`, so `errors.Is` against
the sentinel holds exactly for this constructor. -/
inductive GoErr where
  | quotaExceeded (detail : Str)
  | httpFailed (status : Nat) (body : Str)
  | apiKeyRequired
  | requestFailed
deriving DecidableEq

/-- `errors.Is(err, ErrQuotaExceeded)`. -/
def errorsIsQuota : Option GoErr → Bool
  | some (.quotaExceeded _) => true
  | _ => false

structure HTTPResp where
  status : Nat
  body : HTTPBody
  retryAfter : Int
deriving DecidableEq

/-- The quadruple `doRequestWithKey` returns. -/
structure KeyResult where
  body : Option Str
  status : Nat
  retryAfter : Int
  err : Option GoErr
deriving DecidableEq

/-- Source `doRequestWithKey`, applied to the response of one exchange:
2xx succeeds; a 403 with a quota body wraps the sentinel; any other non-2xx
is the generic request failure. -/
def doRequestWithKeySim (r : HTTPResp) : KeyResult :=
  if 200 ≤ r.status ∧ r.status < 300 then
    { body := some r.body.raw, status := r.status, retryAfter := 0, err := none }
  else if r.status = 403 ∧ isQuotaExceeded r.body = true then
    { body := none, status := r.status, retryAfter := r.retryAfter,
      err := some (.quotaExceeded (goTrim r.body.raw)) }
  else
    { body := none, status := r.status, retryAfter := r.retryAfter,
      err := some (.httpFailed r.status (goTrim r.body.raw)) }

/-- Outcome of the per-key attempt loop of `doRequest`. -/
inductive KeyOutcome where
  | success (body : Str) (used : Nat)
  | authBreak (e : GoErr) (used : Nat)
  | hardFail (e : GoErr) (used : Nat)
  | exhausted (lastErr : Option GoErr) (used : Nat)
deriving DecidableEq

/-- The attempt loop for one key: `base` is the index of the next request in
the script, the `Nat` argument the remaining attempts.  401/403 breaks to the
next key; 429 with attempts remaining sleeps and retries; any other error
returns from `doRequest` directly. -/
def runKey (script : Nat → HTTPResp) (base : Nat) : Nat → KeyOutcome
  | 0 => .exhausted none 0
  | rem + 1 =>
    let r := doRequestWithKeySim (script base)
    match r.err with
    | none => .success (r.body.getD []) 1
    | some e =>
      if r.status = 401 ∨ r.status = 403 then .authBreak e 1
      else if r.status = 429 ∧ rem > 0 then
        match runKey script (base + 1) rem with
        | .success b u => .success b (u + 1)
        | .authBreak e' u => .authBreak e' (u + 1)
        | .hardFail e' u => .hardFail e' (u + 1)
        | .exhausted le u => .exhausted (le.orElse fun _ => some e) (u + 1)
      else .hardFail e 1

/-- The key loop of `doRequest`: thread `lastErr` across keys; when all keys
are exhausted return the last error (or the generic failure if none). -/
def runKeys (script : Nat → HTTPResp) (attempts : Nat) :
    Nat → List Str → Option GoErr → Except GoErr Str × Nat
  | used, [], lastErr =>
    (match lastErr with
     | some e => .error e
     | none => .error .requestFailed, used)
  | used, _k :: ks, lastErr =>
    match runKey script used attempts with
    | .success b u => (.ok b, used + u)
    | .authBreak e u => runKeys script attempts (used + u) ks (some e)
    | .hardFail e u => (.error e, used + u)
    | .exhausted le u =>
      runKeys script attempts (used + u) ks (le.orElse fun _ => lastErr)

/-- Source key-candidate construction: primary if non-blank, then secondary
if non-blank and distinct. -/
def buildKeys (primary secondary : Str) : List Str :=
  (if goTrim primary ≠ [] then [primary] else []) ++
    (if goTrim secondary ≠ [] ∧ secondary ≠ primary then [secondary] else [])

/-- Source `doRequest`, simulated against a response script: returns the
result and the number of requests issued. -/
def doRequestSim (script : Nat → HTTPResp) (primary secondary : Str)
    (maxRetries : Int) : Except GoErr Str × Nat :=
  match buildKeys primary secondary with
  | [] => (.error .apiKeyRequired, 0)
  | k :: ks => runKeys script (max (maxRetries + 1) 1).toNat 0 (k :: ks) none

/-! ### Structural lemmas about the attempt and key loops -/

/-- Requests consumed by a per-key outcome. -/
def KeyOutcome.used : KeyOutcome → Nat
  | .success _ u => u
  | .authBreak _ u => u
  | .hardFail _ u => u
  | .exhausted _ u => u

lemma runKey_not_exhausted (script : Nat → HTTPResp) :
    ∀ (rem : Nat) (base : Nat), 1 ≤ rem →
    ∀ le u, runKey script base rem ≠ .exhausted le u := by
  intro rem
  induction rem with
  | zero => omega
  | succ r ih =>
    intro base _ le u
    cases he : (doRequestWithKeySim (script base)).err with
    | none => simp [runKey, he]
    | some e =>
      simp only [runKey, he]
      split
      · simp
      · split
        · rename_i hcond
          cases hr : runKey script (base + 1) r with
          | exhausted le' u' => exact absurd hr (ih (base + 1) (by omega) le' u')
          | success b u' => simp [hr]
          | authBreak e' u' => simp [hr]
          | hardFail e' u' => simp [hr]
        · simp

lemma runKey_used_ge1 (script : Nat → HTTPResp) :
    ∀ (rem : Nat) (base : Nat), 1 ≤ rem → 1 ≤ (runKey script base rem).used := by
  intro rem
  induction rem with
  | zero => omega
  | succ r _ =>
    intro base _
    cases he : (doRequestWithKeySim (script base)).err with
    | none => simp [runKey, he, KeyOutcome.used]
    | some e =>
      simp only [runKey, he]
      split
      · simp [KeyOutcome.used]
      · split
        · cases hr : runKey script (base + 1) r <;> simp [hr, KeyOutcome.used]
        · simp [KeyOutcome.used]

lemma runKeys_count_ge (script : Nat → HTTPResp) (attempts : Nat)
    (ha : 1 ≤ attempts) : ∀ (ks : List Str) (used : Nat) (le : Option GoErr),
    used ≤ (runKeys script attempts used ks le).2 ∧
    (ks ≠ [] → used + 1 ≤ (runKeys script attempts used ks le).2) := by
  intro ks
  induction ks with
  | nil =>
    intro used le
    exact ⟨le_refl _, fun h => absurd rfl h⟩
  | cons k ks ih =>
    intro used le
    have hu := runKey_used_ge1 script attempts used ha
    unfold runKeys
    cases hr : runKey script used attempts with
    | success b u =>
      rw [hr] at hu
      simp only [KeyOutcome.used] at hu
      simp only [hr]
      exact ⟨by show used ≤ used + u; omega,
        fun _ => by show used + 1 ≤ used + u; omega⟩
    | hardFail e u =>
      rw [hr] at hu
      simp only [KeyOutcome.used] at hu
      simp only [hr]
      exact ⟨by show used ≤ used + u; omega,
        fun _ => by show used + 1 ≤ used + u; omega⟩
    | authBreak e u =>
      rw [hr] at hu
      simp only [KeyOutcome.used] at hu
      simp only [hr]
      have h1 := (ih (used + u) (some e)).1
      exact ⟨by omega, fun _ => by omega⟩
    | exhausted le' u =>
      exact absurd hr (runKey_not_exhausted script attempts used ha le' u)

lemma runKeys_lastErr_irrel (script : Nat → HTTPResp) (attempts : Nat)
    (ha : 1 ≤ attempts) : ∀ (ks : List Str) (used : Nat) (le1 le2 : Option GoErr),
    ks ≠ [] →
    runKeys script attempts used ks le1 = runKeys script attempts used ks le2 := by
  intro ks
  cases ks with
  | nil => intro used le1 le2 h; exact absurd rfl h
  | cons k ks =>
    intro used le1 le2 _
    unfold runKeys
    cases hr : runKey script used attempts with
    | success b u => simp only [hr]
    | hardFail e u => simp only [hr]
    | authBreak e u => simp only [hr]
    | exhausted le' u =>
      exact absurd hr (runKey_not_exhausted script attempts used ha le' u)

/-! ### Classification lemmas for single exchanges -/

/-- One-step unfolding of the attempt loop. -/
lemma runKey_succ_eq (script : Nat → HTTPResp) (base rem : Nat) :
    runKey script base (rem + 1) =
      match (doRequestWithKeySim (script base)).err with
      | none => .success ((doRequestWithKeySim (script base)).body.getD []) 1
      | some e =>
        if (doRequestWithKeySim (script base)).status = 401 ∨
            (doRequestWithKeySim (script base)).status = 403 then
          .authBreak e 1
        else if (doRequestWithKeySim (script base)).status = 429 ∧ rem > 0 then
          match runKey script (base + 1) rem with
          | .success b u => .success b (u + 1)
          | .authBreak e' u => .authBreak e' (u + 1)
          | .hardFail e' u => .hardFail e' (u + 1)
          | .exhausted le u => .exhausted (le.orElse fun _ => some e) (u + 1)
        else .hardFail e 1 := rfl

lemma dRWK_403_quota {r : HTTPResp} (hs : r.status = 403)
    (hq : isQuotaExceeded r.body = true) :
    doRequestWithKeySim r =
      { body := none, status := r.status, retryAfter := r.retryAfter,
        err := some (.quotaExceeded (goTrim r.body.raw)) } := by
  unfold doRequestWithKeySim
  rw [if_neg (by omega), if_pos ⟨hs, hq⟩]

lemma dRWK_403_generic {r : HTTPResp} (hs : r.status = 403)
    (hq : isQuotaExceeded r.body = false) :
    doRequestWithKeySim r =
      { body := none, status := r.status, retryAfter := r.retryAfter,
        err := some (.httpFailed r.status (goTrim r.body.raw)) } := by
  unfold doRequestWithKeySim
  rw [if_neg (by omega), if_neg (by simp [hq])]

lemma dRWK_429 {r : HTTPResp} (hs : r.status = 429) :
    doRequestWithKeySim r =
      { body := none, status := r.status, retryAfter := r.retryAfter,
        err := some (.httpFailed r.status (goTrim r.body.raw)) } := by
  unfold doRequestWithKeySim
  rw [if_neg (by omega), if_neg (by omega)]

/-- A 403 body whose JSON `message` field lacks `quota` even though the raw
body contains it. -/
def bodyJsonQuota : HTTPBody :=
  { raw := "\x7bmessage: Forbidden, detail: Daily quota exceeded\x7d".toList,
    jsonMessage := some (some "Forbidden".toList) }

/-- C6 (counterexample): a 403 whose body contains `quota` (case-insensitively)
but whose JSON `message` field does not; `doRequestWithKey` classifies it as
the generic failure, not the quota sentinel. -/
theorem quotaClassification_counterexample :
    containsL "quota".toList (goLower bodyJsonQuota.raw) = true ∧
      errorsIsQuota (doRequestWithKeySim
        { status := 403, body := bodyJsonQuota, retryAfter := 0 }).err = false := by
  exact ⟨by decide, by decide⟩

/-- C6 (amended): a 403 yields the quota sentinel exactly when
`isQuotaExceeded` holds of the body, which checks the JSON `message` field
when the body is a JSON object carrying one and the raw body otherwise; in
particular a non-JSON 403 body `... quota exceeded ...` yields the sentinel,
distinguishable from the generic 403 error. -/
theorem quotaClassification_amended :
    (∀ r : HTTPResp, r.status = 403 → isQuotaExceeded r.body = true →
      (doRequestWithKeySim r).err = some (.quotaExceeded (goTrim r.body.raw)) ∧
      errorsIsQuota (doRequestWithKeySim r).err = true) ∧
    (∀ r : HTTPResp, r.status = 403 → isQuotaExceeded r.body = false →
      (doRequestWithKeySim r).err = some (.httpFailed r.status (goTrim r.body.raw)) ∧
      errorsIsQuota (doRequestWithKeySim r).err = false) ∧
    (∀ b m, b ≠ [] →
      isQuotaExceeded { raw := b, jsonMessage := some (some m) } =
        containsL "quota".toList (goLower m)) ∧
    (∀ b, b ≠ [] →
      isQuotaExceeded { raw := b, jsonMessage := none } =
        containsL "quota".toList (goLower b)) ∧
    errorsIsQuota (doRequestWithKeySim
      { status := 403,
        body := { raw := "... quota exceeded ...".toList, jsonMessage := none },
        retryAfter := 0 }).err = true := by
  refine ⟨?_, ?_, ?_, ?_, by decide⟩
  · intro r hs hq
    rw [dRWK_403_quota hs hq]
    exact ⟨rfl, rfl⟩
  · intro r hs hq
    rw [dRWK_403_generic hs hq]
    exact ⟨rfl, rfl⟩
  · intro b m hb
    simp [isQuotaExceeded, hb]
  · intro b hb
    simp [isQuotaExceeded, hb]

/-- C6 (witness): the quota classification applied to a concrete plain-text
quota body. -/
theorem quotaClassification_amended_witness :
    (doRequestWithKeySim
      { status := 403,
        body := { raw := "API quota exceeded".toList, jsonMessage := none },
        retryAfter := 0 }).err =
      some (.quotaExceeded (goTrim "API quota exceeded".toList)) ∧
    errorsIsQuota (doRequestWithKeySim
      { status := 403,
        body := { raw := "API quota exceeded".toList, jsonMessage := none },
        retryAfter := 0 }).err = true :=
  quotaClassification_amended.1
    { status := 403,
      body := { raw := "API quota exceeded".toList, jsonMessage := none },
      retryAfter := 0 } rfl (by decide)

/-! ### Quota responses and key rotation (claim C1) -/

def respQuota403 : HTTPResp :=
  { status := 403, body := { raw := "API quota exceeded".toList, jsonMessage := none },
    retryAfter := 0 }

def respOK : HTTPResp :=
  { status := 200, body := { raw := "ok-body".toList, jsonMessage := some none },
    retryAfter := 0 }

/-- Script: quota-403 on the first request, 200 afterwards. -/
def scriptQuotaThenOK : Nat → HTTPResp :=
  fun n => if n = 0 then respQuota403 else respOK

/-- C1 (counterexample): with two keys, a quota-classified 403 on the first
key does not end the operation: a second request is issued with the next key
and its success becomes the operation's result. -/
theorem quotaRotation_counterexample :
    doRequestSim scriptQuotaThenOK "k1".toList "k2".toList 3 =
      (.ok "ok-body".toList, 2) := by
  rfl

/-- C1 (amended): a quota-classified 403 aborts only the current key's
attempts; with keys remaining, the orchestrator continues exactly as a fresh
run over the remaining keys, issuing at least one further request.  The quota
error can only propagate through `lastErr` when every later key also fails. -/
theorem quotaRotation_amended (script : Nat → HTTPResp) (attempts used : Nat)
    (k1 : Str) (ks : List Str) (lastErr : Option GoErr)
    (ha : 1 ≤ attempts) (hks : ks ≠ [])
    (hs : (script used).status = 403)
    (hq : isQuotaExceeded (script used).body = true) :
    runKeys script attempts used (k1 :: ks) lastErr =
      runKeys script attempts (used + 1) ks none ∧
    used + 2 ≤ (runKeys script attempts (used + 1) ks none).2 := by
  have hdr := dRWK_403_quota hs hq
  have hkey : runKey script used attempts =
      .authBreak (.quotaExceeded (goTrim (script used).body.raw)) 1 := by
    match attempts, ha with
    | a + 1, _ =>
      simp only [runKey_succ_eq, hdr]
      simp [hs]
  constructor
  · simp only [runKeys, hkey]
    exact runKeys_lastErr_irrel script attempts ha ks (used + 1)
      (some (.quotaExceeded (goTrim (script used).body.raw))) none hks
  · have := (runKeys_count_ge script attempts ha ks (used + 1) none).2 hks
    omega

/-- C1 (witness): the rotation theorem applied to the concrete
quota-then-success script. -/
theorem quotaRotation_amended_witness :
    runKeys scriptQuotaThenOK 4 0 ["k1".toList, "k2".toList] none =
      runKeys scriptQuotaThenOK 4 1 ["k2".toList] none ∧
    2 ≤ (runKeys scriptQuotaThenOK 4 1 ["k2".toList] none).2 :=
  quotaRotation_amended scriptQuotaThenOK 4 0 "k1".toList ["k2".toList] none
    (by omega) (by simp) rfl (by decide)

/-! ### 429 exhaustion does not rotate keys (claim C3) -/

def resp429 : HTTPResp :=
  { status := 429, body := { raw := "rate limited".toList, jsonMessage := none },
    retryAfter := 1 }

/-- Script: 429 for the first two requests, 200 afterwards. -/
def script429 : Nat → HTTPResp :=
  fun n => if n ≤ 1 then resp429 else respOK

/-- C3 (counterexample): with `MaxRetries = 1` (two attempts) and two keys,
exhausting the attempt budget on 429 returns the 429 error after exactly two
requests; the second key — whose request would have succeeded — is never
tried. -/
theorem rateLimitExhaustion_counterexample :
    doRequestSim script429 "k1".toList "k2".toList 1 =
      (.error (.httpFailed 429 "rate limited".toList), 2) ∧
    (script429 2).status = 200 := by
  exact ⟨rfl, rfl⟩

lemma runKey_all429 (script : Nat → HTTPResp) :
    ∀ (rem base : Nat), 1 ≤ rem →
    (∀ i, i < rem → (script (base + i)).status = 429) →
    runKey script base rem =
      .hardFail (.httpFailed 429 (goTrim (script (base + rem - 1)).body.raw)) rem := by
  intro rem
  induction rem with
  | zero => omega
  | succ r ih =>
    intro base _ hall
    have h0 : (script base).status = 429 := by simpa using hall 0 (by omega)
    have hdr := dRWK_429 h0
    cases r with
    | zero =>
      simp only [runKey_succ_eq, hdr]
      simp [h0]
    | succ r' =>
      have hrec := ih (base + 1) (by omega) (fun i hi => by
        have := hall (i + 1) (by omega)
        simpa [Nat.add_assoc, Nat.add_comm 1 i] using this)
      have harith : base + 1 + (r' + 1) - 1 = base + (r' + 1 + 1) - 1 := by omega
      rw [harith] at hrec
      rw [runKey_succ_eq, hdr, hrec]
      simp [h0]

/-- C3 (amended): when every response for the current key is 429, `doRequest`
returns the final 429 error after exactly `attempts` requests — it does not
fall through to the next key (only 401/403 rotates keys). -/
theorem rateLimitExhaustion_amended (script : Nat → HTTPResp)
    (attempts used : Nat) (k1 : Str) (ks : List Str) (lastErr : Option GoErr)
    (ha : 1 ≤ attempts)
    (hall : ∀ i, i < attempts → (script (used + i)).status = 429) :
    runKeys script attempts used (k1 :: ks) lastErr =
      (.error (.httpFailed 429 (goTrim (script (used + attempts - 1)).body.raw)),
        used + attempts) := by
  have hkey := runKey_all429 script attempts used ha hall
  simp only [runKeys, hkey]

/-- C3 (witness): the exhaustion theorem applied to an all-429 script with a
second key available. -/
theorem rateLimitExhaustion_amended_witness :
    runKeys (fun _ => resp429) 2 0 ["k1".toList, "k2".toList] none =
      (.error (.httpFailed 429 "rate limited".toList), 2) :=
  rateLimitExhaustion_amended (fun _ => resp429) 2 0 "k1".toList ["k2".toList]
    none (by omega) (fun i _ => rfl)

/-! ### SDMX response decoding (wits `parseSDMXObservations`)

The SDMX-JSON payload is modelled structurally; Go map fields
(`series`, `observations`) become association lists — iteration order is
unspecified in Go, and the claims below are about membership only. -/

structure SdmxValue where
  id : Str
deriving DecidableEq

structure SdmxDimension where
  id : Str
  values : List SdmxValue
deriving DecidableEq

structure SdmxSeries where
  observations : List (Str × List GoVal)
deriving DecidableEq

structure SdmxDataSet where
  series : List (Str × SdmxSeries)
  observations : List (Str × List GoVal) := []
deriving DecidableEq

structure SdmxDimensions where
  series : List SdmxDimension
  observation : List SdmxDimension
deriving DecidableEq

structure SdmxStructure where
  dimensions : SdmxDimensions
deriving DecidableEq

structure SdmxResponse where
  dataSets : List SdmxDataSet
  struct : SdmxStructure
deriving DecidableEq

/-- Source `parseSeriesKey`: split the colon-delimited key, require the
expected component count (when positive), and parse every component as an
integer. -/
def parseSeriesKey (key : Str) (expected : Nat) : Option (List Int) :=
  if expected > 0 ∧ (splitC ':' key).length ≠ expected then none
  else (splitC ':' key).mapM goAtoi

/-- Source `parseSDMXValue`: the first element of the value array, coerced to
a number (a `json.Number` under `UseNumber`, or a numeric string). -/
def parseSDMXValue (values : List GoVal) : Option ℚ :=
  match values with
  | [] => none
  | v :: _ =>
    match v with
    | .num lit => goParseFloat lit
    | .str s => goParseFloat (goTrim s)
    | _ => none

/-- Source `flowFromIndicator`: indicator prefix `XPRT` is export, `MPRT`
import. -/
def flowFromIndicator (indicator : Str) : Option Str :=
  if strStarts (goUpper (goTrim indicator)) "XPRT".toList then some "export".toList
  else if strStarts (goUpper (goTrim indicator)) "MPRT".toList then some "import".toList
  else none

/-- The `dimensionValues` map built per series: in-range indices assign the
dimension's category ID; every malformed index is skipped (the entry is
simply absent).  Later assignments shadow earlier ones. -/
def dimValues (seriesDims : List SdmxDimension) (indices : List Int) :
    List (Str × Str) :=
  seriesDims.enum.foldl
    (fun acc p =>
      if p.1 ≥ indices.length ∨ indices.getD p.1 0 < 0 ∨
          indices.getD p.1 0 ≥ (p.2.values.length : Int) then acc
      else (p.2.id, ((p.2.values.map SdmxValue.id).getD (indices.getD p.1 0).toNat []))
        :: acc)
    []

def dimLookup (m : List (Str × Str)) (k : Str) : Option Str :=
  (m.find? (fun kv => kv.1 == k)).map (·.2)

/-- One observation entry of one series: integer time index, in range of the
time dimension, normalizable period, parsable value — otherwise skipped. -/
def obsFromEntry (timeValues : List Str) (flow reporter partner : Str)
    (mult : ℚ) (entry : Str × List GoVal) : Option Observation :=
  match goAtoi entry.1 with
  | none => none
  | some idx =>
    if idx < 0 ∨ idx ≥ (timeValues.length : Int) then none
    else
      match normalizePeriod (timeValues.getD idx.toNat []) with
      | none => none
      | some (t, p) =>
        match parseSDMXValue entry.2 with
        | none => none
        | some v =>
          some { reporterISO3 := goUpper reporter, partnerISO3 := goUpper partner,
                 flow := flow, periodType := t, period := p, valueUSD := v * mult }

/-- All observations of one series entry: a non-integer (or wrongly sized)
series key skips the series; otherwise reporter/partner/flow come from the
in-range dimension values, falling back to the request-supplied ones. -/
def seriesObs (seriesDims : List SdmxDimension) (timeValues : List Str)
    (fallbackFlow reporterISO3 partnerISO3 : Str) (mult : ℚ)
    (entry : Str × SdmxSeries) : List Observation :=
  match parseSeriesKey entry.1 seriesDims.length with
  | none => []
  | some indices =>
    entry.2.observations.filterMap
      (obsFromEntry timeValues
        (match dimLookup (dimValues seriesDims indices) "INDICATOR".toList with
          | some ind =>
            match flowFromIndicator ind with
            | some f => f
            | none => fallbackFlow
          | none => fallbackFlow)
        (match dimLookup (dimValues seriesDims indices) "REPORTER".toList with
          | some v => if v ≠ [] then v else reporterISO3
          | none => reporterISO3)
        (match dimLookup (dimValues seriesDims indices) "PARTNER".toList with
          | some v => if v ≠ [] then v else partnerISO3
          | none => partnerISO3)
        mult)

/-- Source `parseSDMXObservations`. -/
def parseSDMXObservations (payload : SdmxResponse)
    (fallbackFlow reporterISO3 partnerISO3 : Str) (mult : ℚ) :
    Except Str (List Observation) :=
  match payload.dataSets with
  | [] => .error "wits: missing dataset".toList
  | ds :: _ =>
    match payload.struct.dimensions.observation with
    | [] => .error "wits: missing observation dimension".toList
    | timeDim :: _ =>
      if ds.series = [] then .error "wits: empty series response".toList
      else
        match ds.series.flatMap
            (seriesObs payload.struct.dimensions.series
              (timeDim.values.map SdmxValue.id) fallbackFlow reporterISO3
              partnerISO3 mult) with
        | [] => .error "wits: no observations parsed".toList
        | o :: os => .ok (o :: os)

/-! ### Skip behaviour of the SDMX decoder (claim C5) -/

lemma obsFromEntry_some {timeValues : List Str} {flow reporter partner : Str}
    {mult : ℚ} {okey : Str} {oval : List GoVal} {i : Int} {t p : Str} {v : ℚ}
    (hi : goAtoi okey = some i) (h0 : 0 ≤ i)
    (hlt : i < (timeValues.length : Int))
    (hn : normalizePeriod (timeValues.getD i.toNat []) = some (t, p))
    (hv : parseSDMXValue oval = some v) :
    obsFromEntry timeValues flow reporter partner mult (okey, oval) =
      some { reporterISO3 := goUpper reporter, partnerISO3 := goUpper partner,
             flow := flow, periodType := t, period := p, valueUSD := v * mult } := by
  unfold obsFromEntry
  simp only [hi]
  rw [if_neg (by omega)]
  simp only [hn, hv]

lemma obsFromEntry_inv {timeValues : List Str} {flow reporter partner : Str}
    {mult : ℚ}
    {entry : Str × List GoVal} {o : Observation}
    (h : obsFromEntry timeValues flow reporter partner mult entry = some o) :
    ∃ i v, goAtoi entry.1 = some i ∧ 0 ≤ i ∧ i < (timeValues.length : Int) ∧
      normalizePeriod (timeValues.getD i.toNat []) =
        some (o.periodType, o.period) ∧
      parseSDMXValue entry.2 = some v ∧ o.valueUSD = v * mult := by
  unfold obsFromEntry at h
  cases hi : goAtoi entry.1 with
  | none => simp [hi] at h
  | some i =>
    simp only [hi] at h
    split at h
    · cases h
    · rename_i hrange
      cases hn : normalizePeriod (timeValues.getD i.toNat []) with
      | none =>
        simp only [hn] at h
        exact Option.noConfusion h
      | some tp =>
        obtain ⟨t, p⟩ := tp
        simp only [hn] at h
        cases hv : parseSDMXValue entry.2 with
        | none => simp [hv] at h
        | some v =>
          simp only [hv, Option.some_inj] at h
          subst h
          exact ⟨i, v, rfl, by omega, by omega, hn, rfl, rfl⟩

lemma seriesObs_inv {seriesDims : List SdmxDimension} {timeValues : List Str}
    {ff rep par : Str} {mult : ℚ} {k : Str} {ser : SdmxSeries} {o : Observation}
    (h : o ∈ seriesObs seriesDims timeValues ff rep par mult (k, ser)) :
    ∃ idxs okey oval, parseSeriesKey k seriesDims.length = some idxs ∧
      (okey, oval) ∈ ser.observations ∧
      ∃ i v, goAtoi okey = some i ∧ 0 ≤ i ∧ i < (timeValues.length : Int) ∧
        normalizePeriod (timeValues.getD i.toNat []) =
          some (o.periodType, o.period) ∧
        parseSDMXValue oval = some v ∧ o.valueUSD = v * mult := by
  unfold seriesObs at h
  cases hk : parseSeriesKey k seriesDims.length with
  | none => simp [hk] at h
  | some idxs =>
    simp only [hk] at h
    obtain ⟨entry, hmem, heq⟩ := List.mem_filterMap.mp h
    obtain ⟨okey, oval⟩ := entry
    obtain ⟨i, v, h1, h2, h3, h4, h5, h6⟩ := obsFromEntry_inv heq
    exact ⟨idxs, okey, oval, rfl, hmem, i, v, h1, h2, h3, h4, h5, h6⟩

/-- One series of the C5 counterexample payload. -/
def cexSeries : SdmxSeries :=
  { observations := [("0".toList, [GoVal.num "5".toList])] }

/-- C5 counterexample payload: one REPORTER series dimension with a single
value, one series whose key `7` is a well-formed integer but out of range of
that dimension, and one in-range observation. -/
def cexPayload : SdmxResponse :=
  { dataSets := [{ series := [("7".toList, cexSeries)] }],
    struct :=
      { dimensions :=
        { series := [{ id := "REPORTER".toList, values := [{ id := "USA".toList }] }],
          observation :=
            [{ id := "TIME_PERIOD".toList, values := [{ id := "2020".toList }] }] } } }

/-- C5 (counterexample): an out-of-range series-dimension index does not skip
the observation: series key `7` indexes the one-value REPORTER dimension out
of range, yet the observation is produced (with the request-supplied
reporter). -/
theorem sdmxSkip_counterexample :
    parseSeriesKey "7".toList 1 = some [7] ∧
    (cexPayload.struct.dimensions.series.map fun d => d.values.length) = [1] ∧
    parseSDMXObservations cexPayload "export".toList "KOR".toList "USA".toList 1 =
      .ok [{ reporterISO3 := "KOR".toList, partnerISO3 := "USA".toList,
             flow := "export".toList, periodType := ptY, period := "2020".toList,
             valueUSD := 5 }] := by
  refine ⟨rfl, rfl, ?_⟩
  have h5 : ((1 : ℚ) * ((digitsVal ['5'] : Nat) : ℚ)) * 1 = 5 := by
    rw [show digitsVal ['5'] = 5 from by decide]
    norm_num
  rw [← h5]
  rfl

/-- C5 (amended): the decoder skips at these granularities: a non-integer or
wrongly sized series key skips that series; a non-integer or out-of-range
observation (time) key, a non-normalizable period, or an unparsable value
skips that single observation; an out-of-range series-dimension index skips
nothing — the dimension value is merely absent.  Every well-formed
observation in the payload is returned (first conjunct), and every returned
observation stems from a parsable series key and an in-range time index
(second conjunct). -/
theorem sdmxSkip_amended :
    (∀ (payload : SdmxResponse) (ff rep par : Str) (mult : ℚ)
        (ds : SdmxDataSet) (rest : List SdmxDataSet)
        (timeDim : SdmxDimension) (obsRest : List SdmxDimension)
        (k : Str) (ser : SdmxSeries) (idxs : List Int)
        (okey : Str) (oval : List GoVal) (i : Int) (t p : Str) (v : ℚ),
      payload.dataSets = ds :: rest →
      payload.struct.dimensions.observation = timeDim :: obsRest →
      (k, ser) ∈ ds.series →
      parseSeriesKey k payload.struct.dimensions.series.length = some idxs →
      (okey, oval) ∈ ser.observations →
      goAtoi okey = some i → 0 ≤ i →
      i < ((timeDim.values.map SdmxValue.id).length : Int) →
      normalizePeriod ((timeDim.values.map SdmxValue.id).getD i.toNat []) =
        some (t, p) →
      parseSDMXValue oval = some v →
      ∃ l, parseSDMXObservations payload ff rep par mult = .ok l ∧
        ∃ o ∈ l, o.periodType = t ∧ o.period = p ∧ o.valueUSD = v * mult) ∧
    (∀ (payload : SdmxResponse) (ff rep par : Str) (mult : ℚ)
        (ds : SdmxDataSet) (rest : List SdmxDataSet)
        (timeDim : SdmxDimension) (obsRest : List SdmxDimension)
        (l : List Observation),
      payload.dataSets = ds :: rest →
      payload.struct.dimensions.observation = timeDim :: obsRest →
      parseSDMXObservations payload ff rep par mult = .ok l →
      ∀ o ∈ l, ∃ k ser idxs okey oval i v,
        (k, ser) ∈ ds.series ∧
        parseSeriesKey k payload.struct.dimensions.series.length = some idxs ∧
        (okey, oval) ∈ ser.observations ∧
        goAtoi okey = some i ∧ 0 ≤ i ∧
        i < ((timeDim.values.map SdmxValue.id).length : Int) ∧
        normalizePeriod ((timeDim.values.map SdmxValue.id).getD i.toNat []) =
          some (o.periodType, o.period) ∧
        parseSDMXValue oval = some v ∧ o.valueUSD = v * mult) := by
  constructor
  · intro payload ff rep par mult ds rest timeDim obsRest k ser idxs okey oval
      i t p v hds hobs hmemS hkey hmemO hi h0 hlt hn hv
    have hoSer : ∃ o, o ∈ seriesObs payload.struct.dimensions.series
        (timeDim.values.map SdmxValue.id) ff rep par mult (k, ser) ∧
        o.periodType = t ∧ o.period = p ∧ o.valueUSD = v * mult := by
      unfold seriesObs
      simp only [hkey]
      exact ⟨_, List.mem_filterMap.mpr
        ⟨(okey, oval), hmemO, obsFromEntry_some hi h0 hlt hn hv⟩, rfl, rfl, rfl⟩
    obtain ⟨o, hoMem, ho1, ho2, ho3⟩ := hoSer
    have hser_ne : ds.series ≠ [] := by
      intro h
      rw [h] at hmemS
      cases hmemS
    have hoFlat : o ∈ ds.series.flatMap
        (seriesObs payload.struct.dimensions.series
          (timeDim.values.map SdmxValue.id) ff rep par mult) :=
      List.mem_flatMap.mpr ⟨(k, ser), hmemS, hoMem⟩
    unfold parseSDMXObservations
    simp only [hds, hobs]
    rw [if_neg hser_ne]
    cases hfm : ds.series.flatMap
        (seriesObs payload.struct.dimensions.series
          (timeDim.values.map SdmxValue.id) ff rep par mult) with
    | nil => exact absurd (hfm ▸ hoFlat) (List.not_mem_nil o)
    | cons o' os =>
      refine ⟨o' :: os, rfl, o, hfm ▸ hoFlat, ho1, ho2, ho3⟩
  · intro payload ff rep par mult ds rest timeDim obsRest l hds hobs hok o hol
    unfold parseSDMXObservations at hok
    simp only [hds, hobs] at hok
    split at hok
    · cases hok
    · cases hfm : ds.series.flatMap
          (seriesObs payload.struct.dimensions.series
            (timeDim.values.map SdmxValue.id) ff rep par mult) with
      | nil => rw [hfm] at hok; cases hok
      | cons o' os =>
        rw [hfm] at hok
        rw [Except.ok.injEq] at hok
        subst hok
        have hoFlat : o ∈ ds.series.flatMap
            (seriesObs payload.struct.dimensions.series
              (timeDim.values.map SdmxValue.id) ff rep par mult) := by
          rw [hfm]
          exact hol
        obtain ⟨entry, hmemS, hoSer⟩ := List.mem_flatMap.mp hoFlat
        obtain ⟨k, ser⟩ := entry
        obtain ⟨idxs, okey, oval, hk, hmemO, i, v, h1, h2, h3, h4, h5, h6⟩ :=
          seriesObs_inv hoSer
        exact ⟨k, ser, idxs, okey, oval, i, v, hmemS, hk, hmemO, h1, h2, h3, h4,
          h5, h6⟩

/-- C5 (witness): the preservation half applied to the counterexample
payload's (well-formed) series and observation. -/
theorem sdmxSkip_amended_witness :
    ∃ l, parseSDMXObservations cexPayload "export".toList "KOR".toList
        "USA".toList 1 = .ok l ∧
      ∃ o ∈ l, o.periodType = ptY ∧ o.period = "2020".toList ∧
        o.valueUSD = 5 * 1 := by
  have h5 : parseSDMXValue [GoVal.num "5".toList] = some 5 := by
    have e : ((1 : ℚ) * ((digitsVal ['5'] : Nat) : ℚ)) = 5 := by
      rw [show digitsVal ['5'] = 5 from by decide]
      norm_num
    rw [← e]
    rfl
  exact sdmxSkip_amended.1 cexPayload "export".toList "KOR".toList "USA".toList 1
    { series := [("7".toList, cexSeries)] } []
    { id := "TIME_PERIOD".toList, values := [{ id := "2020".toList }] } []
    "7".toList cexSeries [7] "0".toList [GoVal.num "5".toList] 0 ptY
    "2020".toList 5 rfl rfl (List.mem_singleton.mpr rfl) rfl
    (List.mem_singleton.mpr rfl) rfl (by omega) (by decide) (by decide) h5

example : normalizePeriod "202001".toList = some (ptM, "2020-01".toList) := by decide
example : normalizePeriod "2020-1".toList = some (ptM, "2020-01".toList) := by decide
example : normalizePeriod "2020-Q3".toList = some (ptQ, "2020-Q3".toList) := by decide
example : normalizePeriod "2020q3".toList = some (ptQ, "2020-Q3".toList) := by decide
example : normalizePeriod "2020".toList = some (ptY, "2020".toList) := by decide
example : normalizePeriod "202013".toList = none := by decide
example : normalizePeriod "2020-13".toList = none := by decide
example : normalizePeriod "12345-Q2".toList = some (ptQ, "12345-Q2".toList) := by decide
example : isCanonQuarter "12345-Q2".toList = false := by decide

end TradeGravity
